import Mathlib

/-!
Parquet adapter of `core/dbio/iop/parquet.go`

A shallow embedding of the schema builder (`nodeOf`, `NewRecNode`), the writer
(`NewParquetWriter`, `WriteRow`) and the reader (`Columns`, `nextFunc`) of the
package `iop`, followed by the properties proved about them.

Conventions of the embedding:

* Go `int` values (`Position`, `DbPrecision`, `DbScale`) are `Int`. The only
  arithmetic the file does on them is `len(cols) + 1` and `col.Position - 1`,
  neither of which can change an index decision by wrapping, so they carry no
  modulus. The `int64` results of the `time.Time` conversions do wrap and are
  reduced explicitly (`wrap64`).
* A Go slice that a function writes through (`columns[i] = col`) is shared with
  the caller; such functions return the final content of the slice.
* A Go panic is an explicit outcome: `none`, the `fault` constructor, or the
  `.error` result of the loop of `nextFunc`, whose panic is recovered.
* Calls into libraries outside the repository (`parquet-go`, `cast`, `lo`,
  `strings`) and helpers of the repository that are declared in other files
  are parameters of the definitions that call them, or are modelled from the
  specification under a doc comment that says so.
-/

namespace Iop

/-! ## Data model -/

/-- Modelled from the spec: the logical column type, "one of a fixed enumeration:
boolean, integer, big-integer, decimal, float, string, datetime, ...". The Go
declaration of `ColumnType` is in another file of the package; `other` stands
for every value of the type that is none of the named constants. -/
inductive ColumnType where
  | bool
  | integer
  | bigint
  | decimal
  | float
  | string
  | datetime
  | other (name : String)
  deriving DecidableEq, Repr

/-- The constant `BoolType`. -/
def BoolType : ColumnType := .bool
/-- The constant `IntegerType`. -/
def IntegerType : ColumnType := .integer
/-- The constant `BigIntType`. -/
def BigIntType : ColumnType := .bigint
/-- The constant `DecimalType`. -/
def DecimalType : ColumnType := .decimal
/-- The constant `FloatType`. -/
def FloatType : ColumnType := .float
/-- The constant `StringType`. -/
def StringType : ColumnType := .string

/-- The values of `reflect.Type` that `nodeOf` can tell apart: the three named
types it compares against (`deprecated.Int96`, `uuid.UUID`, `time.Time`) and,
for every other type, its kind together with what `Elem`, `Len` and `Bits`
read from it. -/
inductive ReflectType where
  | Int96
  | UUID
  | Time
  | Bool
  | Int
  | Int8
  | Int16
  | Int32
  | Int64
  | Uint
  | Uint8
  | Uint16
  | Uint32
  | Uint64
  | Uintptr
  | Float32
  | Float64
  | Complex64
  | Complex128
  | String
  | UnsafePointer
  | Interface
  | Func
  | Struct
  | Chan (elem : ReflectType)
  | Ptr (elem : ReflectType)
  | Slice (elem : ReflectType)
  | Array (len : Nat) (elem : ReflectType)
  | Map (key : ReflectType) (elem : ReflectType)
  deriving DecidableEq, Repr

/-- The kinds of `reflect.Kind`. -/
inductive Kind where
  | Bool | Int | Int8 | Int16 | Int32 | Int64
  | Uint | Uint8 | Uint16 | Uint32 | Uint64 | Uintptr
  | Float32 | Float64 | Complex64 | Complex128
  | Array | Chan | Func | Interface | Map | Ptr | Slice | String | Struct
  | UnsafePointer
  deriving DecidableEq, Repr

/-- The method `reflect.Type.Kind`. `deprecated.Int96` is `[3]uint32`,
`uuid.UUID` is `[16]byte` and `time.Time` is a struct. -/
def ReflectType.Kind : ReflectType → Kind
  | .Int96 => .Array
  | .UUID => .Array
  | .Time => .Struct
  | .Bool => .Bool
  | .Int => .Int
  | .Int8 => .Int8
  | .Int16 => .Int16
  | .Int32 => .Int32
  | .Int64 => .Int64
  | .Uint => .Uint
  | .Uint8 => .Uint8
  | .Uint16 => .Uint16
  | .Uint32 => .Uint32
  | .Uint64 => .Uint64
  | .Uintptr => .Uintptr
  | .Float32 => .Float32
  | .Float64 => .Float64
  | .Complex64 => .Complex64
  | .Complex128 => .Complex128
  | .String => .String
  | .UnsafePointer => .UnsafePointer
  | .Interface => .Interface
  | .Func => .Func
  | .Struct => .Struct
  | .Chan _ => .Chan
  | .Ptr _ => .Ptr
  | .Slice _ => .Slice
  | .Array _ _ => .Array
  | .Map _ _ => .Map

/-- The method `reflect.Type.Bits` on the sized integer kinds `nodeOf` asks. -/
def ReflectType.Bits : ReflectType → Nat
  | .Int8 => 8
  | .Int16 => 16
  | .Int32 => 32
  | .Int64 => 64
  | .Uint8 => 8
  | .Uint16 => 16
  | .Uint32 => 32
  | .Uint64 => 64
  | .Float32 => 32
  | .Float64 => 64
  | .Complex64 => 64
  | .Complex128 => 128
  | _ => 64

/-- A column of the catalog. `DbPrecision` and `DbScale` are Go `int`s (they
are passed to `parquet.Decimal(scale, precision int, ...)`), `goType` is the
private field `nodeOf` assigns to, nil (`none`) until then. The field `Type`
is spelled `Type_`. -/
structure Column where
  Name : String
  Type_ : ColumnType
  Position : Int
  DbPrecision : Int
  DbScale : Int
  Sourced : Bool
  goType : Option ReflectType
  deriving DecidableEq, Repr

/-- The slice type `Columns`. -/
abbrev Columns := List Column

/-- Modelled from the spec: the accessor `Column.GoType`, the "source
representation" of the column. Its declaration is in another file; `nodeOf`
relies on it returning the field `goType` it has just assigned. What it
returns for a column whose field is still nil is the parameter `derive`. -/
def Column.GoType (derive : Column → ReflectType) (col : Column) : ReflectType :=
  match col.goType with
  | some t => t
  | none => derive col

/-- Modelled from the spec: the predicate `Column.IsBool`, true of the columns
whose logical type is boolean. -/
def Column.IsBool (col : Column) : Bool := decide (col.Type_ = ColumnType.bool)

/-- Modelled from the spec: the predicate `Column.IsDatetime`, true of the
columns whose logical type is datetime. -/
def Column.IsDatetime (col : Column) : Bool := decide (col.Type_ = ColumnType.datetime)

/-! ## The schema tree -/

/-- The values of `parquet.Type` that `Columns` looks up: the eight physical
types, and `logical` for every other type a schema field can carry (string,
sized integer, decimal, timestamp, group, ...). -/
inductive ParquetType where
  | BooleanType
  | Int32Type
  | Int64Type
  | Int96Type
  | FloatType
  | DoubleType
  | ByteArrayType
  | FixedLenByteArrayType (length : Int)
  | logical (name : String)
  deriving DecidableEq, Repr

/-- The time units of `parquet.Timestamp`. -/
inductive TimeUnit where
  | Millisecond
  | Microsecond
  | Nanosecond
  deriving DecidableEq, Repr

/-- The nodes `nodeOf` builds, one constructor for each constructor of the
`parquet` package it calls, `goNode` for the wrapper type of the file and `nil`
for the nil `parquet.Node` that the wrapper holds when no case assigned `n`. -/
inductive Node where
  | nil
  | Leaf (t : ParquetType)
  | UUID
  | Timestamp (unit : TimeUnit)
  | Decimal (scale : Int) (precision : Int) (t : ParquetType)
  | Int (bits : Nat)
  | Uint (bits : Nat)
  | String
  | JSON
  | Optional (n : Node)
  | Repeated (n : Node)
  | goNode (node : Node) (gotype : ReflectType)
  deriving DecidableEq, Repr

/-- The body of `nodeOf` for a column whose source representation is `t`. The
Go function recurses by assigning `col.goType` and calling itself; here the
assigned type is the argument the recursion descends on, and every
`col.GoType()` of the body reads it. Note that in the `Ptr` and `Slice` cases
the final `goNode` is built after the assignment, so it records the element
type. -/
def nodeOfType (col : Column) : ReflectType → Node
  | .Int96 => .Leaf .Int96Type
  | .UUID => .UUID
  | .Time =>
    match col.DbPrecision with
    | 3 => .Timestamp .Millisecond
    | 6 => .Timestamp .Microsecond
    | 9 => .Timestamp .Nanosecond
    | _ => .Timestamp .Nanosecond
  | t =>
    if col.Type_ = FloatType then .goNode (.Leaf .DoubleType) t
    else if col.Type_ = DecimalType then
      .goNode (.Decimal col.DbScale col.DbPrecision (.FixedLenByteArrayType 16)) t
    else
      match t with
      | .Bool => .goNode (.Leaf .BooleanType) t
      | .Int => .goNode (.Int 64) t
      | .Int64 => .goNode (.Int 64) t
      | .Int8 => .goNode (.Int t.Bits) t
      | .Int16 => .goNode (.Int t.Bits) t
      | .Int32 => .goNode (.Int t.Bits) t
      | .Uint => .goNode (.Uint 64) t
      | .Uintptr => .goNode (.Uint 64) t
      | .Uint64 => .goNode (.Uint 64) t
      | .Uint8 => .goNode (.Uint t.Bits) t
      | .Uint16 => .goNode (.Uint t.Bits) t
      | .Uint32 => .goNode (.Uint t.Bits) t
      | .Float32 => .goNode (.Leaf .FloatType) t
      | .Float64 => .goNode (.Leaf .DoubleType) t
      | .String => .goNode .String t
      | .Ptr elem => .goNode (.Optional (nodeOfType col elem)) elem
      | .Slice elem =>
        if elem.Kind = Kind.Uint8 then .goNode (.Leaf .ByteArrayType) t
        else .goNode (.Repeated (nodeOfType col elem)) elem
      | .Array len elem =>
        if elem.Kind = Kind.Uint8 then .goNode (.Leaf (.FixedLenByteArrayType len)) t
        else .goNode .nil t
      | .Map _ _ => .goNode .JSON t
      | _ => .goNode .nil t

/-- The function `nodeOf`. The argument `tag` is never read. -/
def nodeOf (derive : Column → ReflectType) (col : Column) (_tag : List String) : Node :=
  nodeOfType col (col.GoType derive)

/-- The type `structField`: the embedded node, the field name and the index
path. -/
structure structField where
  Node : Node
  name : String
  index : List Int
  deriving DecidableEq, Repr

/-- The type `RecNode`. -/
structure RecNode where
  fields : List structField
  deriving DecidableEq, Repr

/-- One pass of the loop of `NewRecNode`: the field for `cols[i]` is stored at
index `i` of the slice made with `len(cols)` entries. -/
def NewRecNode.step (derive : Column → ReflectType) (cols : Columns)
    (fields : List structField) (i : Nat) : List structField :=
  match cols[i]? with
  | none => fields
  | some col =>
    let field : structField :=
      { name := col.Name, index := [col.Position - 1], Node := nodeOf derive col [] }
    fields.set i field

/-- The function `NewRecNode`. `make([]structField, len(cols))` is a slice of
zero fields (nil node, empty name, nil index). -/
def NewRecNode (derive : Column → ReflectType) (cols : Columns) : RecNode :=
  { fields := (List.range cols.length).foldl (NewRecNode.step derive cols)
      (List.replicate cols.length { Node := .nil, name := "", index := [] }) }

/-- The method `RecNode.Fields`: a fresh slice whose entry `i` points to
`rn.fields[i]`. A field is read through its `Name` method and its embedded
node. -/
def RecNode.Fields (rn : RecNode) : List structField :=
  List.ofFn (fun i : Fin rn.fields.length => rn.fields.get i)

/-- The method `structField.Name`. -/
def structField.Name (f : structField) : String := f.name

/-! ## The writer -/

/-- The helper `lo.Ternary`. -/
def lo.Ternary {α : Type} (condition : Bool) (ifOutput elseOutput : α) : α :=
  if condition then ifOutput else elseOutput

/-- How a call ends: it returns a value and a nil error, it returns an error,
or it panics. -/
inductive Outcome (α : Type) where
  | ok (value : α)
  | error (msg : String)
  | fault
  deriving DecidableEq, Repr

/-- Reduction of an integer to the range of a signed 64-bit integer (Go `int64`
arithmetic wraps). -/
def wrap64 (x : Int) : Int := (x + 2 ^ 63) % 2 ^ 64 - 2 ^ 63

/-- A `time.Time` as the methods used here read it: whole seconds since the
Unix epoch and the nanoseconds within that second (below `10 ^ 9`). -/
structure Time where
  sec : Int
  nsec : Nat
  deriving DecidableEq, Repr

/-- The method `time.Time.UnixMilli`: `t.unixSec()*1e3 + int64(t.nsec())/1e6` in
`int64`. -/
def Time.UnixMilli (t : Time) : Int := wrap64 (t.sec * 1000 + (t.nsec : Int) / 1000000)

/-- The method `time.Time.UnixMicro`: `t.unixSec()*1e6 + int64(t.nsec())/1e3` in
`int64`. -/
def Time.UnixMicro (t : Time) : Int := wrap64 (t.sec * 1000000 + (t.nsec : Int) / 1000)

/-- The method `time.Time.UnixNano`: `t.unixSec()*1e9 + int64(t.nsec())` in
`int64`. -/
def Time.UnixNano (t : Time) : Int := wrap64 (t.sec * 1000000000 + (t.nsec : Int))

/-- The dynamic values (`any`) a generic row holds. A `float64` is kept as its
bit pattern; `other` is a value of any further type. -/
inductive Any where
  | nil
  | bool (b : Bool)
  | int64 (i : Int)
  | float64 (bits : Nat)
  | string (s : String)
  | bytes (b : List Nat)
  | time (t : Time)
  | other (tag : String)
  deriving DecidableEq, Repr

/-- A `parquet.Value`: the zero value, or the value made of a Go value. -/
inductive Value where
  | zero
  | of (v : Any)
  deriving DecidableEq, Repr

/-- The entry points of the `parquet` package that `NewParquetWriter` and
`WriteRow` call. `σ` is `*parquet.Schema`, `ω` is `*parquet.Writer`. A result
`none` of `NewSchema`, `NewWriter` or `ValueOf` is a panic inside the library
(`ValueOf` panics on a Go value it cannot make a parquet value of), and so is
the result `fault` of `WriteRows`. The sink `w` of `NewWriter` is not
modelled. -/
structure ParquetLib (σ ω : Type) where
  NewWriterConfig : Except String Unit
  NewSchema : String → RecNode → Option σ
  NewWriter : σ → String → Option ω
  ValueOf : Any → Option Value
  WriteRows : ω → List (List Value) → Outcome Unit

/-- The conversions `WriteRow` calls: `cast.ToBool`, `cast.ToFloat64`,
`cast.ToString` and the helper `StringToDecimalByteArray` (declared in another
file of the package; its arguments here are the string, the scale factor and
the length, the physical type being a constant; it has no error result, and
`none` is a panic inside it). -/
structure CastLib (ρ : Type) where
  ToBool : Any → Bool
  ToFloat64 : Any → Nat
  ToString : Any → String
  StringToDecimalByteArray : String → Option ρ → Nat → Option (List Nat)

/-- The type `ParquetWriter`. An entry of `decNumScale` is a `*big.Rat`, nil
(`none`) as `make` leaves it. -/
structure ParquetWriter (ρ ω : Type) where
  Writer : ω
  columns : Columns
  decNumScale : List (Option ρ)

/-- One pass of the first loop of `NewParquetWriter` (lines 116 to 126), on
the shared slice `columns` and on `decNumScale`. `MakeDecNumScale` is declared
in another file of the package and is a parameter. -/
def NewParquetWriter.step {ρ : Type} (MakeDecNumScale : Int → ρ)
    (st : Columns × List (Option ρ)) (i : Nat) : Columns × List (Option ρ) :=
  match st.1[i]? with
  | none => st
  | some col =>
    let col : Column := { col with
      DbPrecision := lo.Ternary (col.DbPrecision == 0) 28
        (lo.Ternary (decide (col.DbPrecision > 36)) 36 col.DbPrecision) }
    let col : Column := { col with
      DbScale := lo.Ternary (col.DbScale == 0) 9
        (lo.Ternary (decide (col.DbScale > 16)) 16 col.DbScale) }
    let columns := st.1.set i col
    if col.DbScale > 0 then
      (columns, st.2.set i (some (MakeDecNumScale col.DbScale)))
    else
      (columns, st.2.set i (some (MakeDecNumScale 1)))

/-- The first loop of `NewParquetWriter`, started on the caller's slice and on
`make([]*big.Rat, len(columns))`. -/
def NewParquetWriter.loop {ρ : Type} (MakeDecNumScale : Int → ρ) (columns : Columns) :
    Columns × List (Option ρ) :=
  (List.range columns.length).foldl (NewParquetWriter.step MakeDecNumScale)
    (columns, List.replicate columns.length none)

/-- The function `getParquetSchema`. -/
def getParquetSchema {σ ω : Type} (lib : ParquetLib σ ω) (derive : Column → ReflectType)
    (cols : Columns) : Option σ :=
  lib.NewSchema "" (NewRecNode derive cols)

/-- The function `NewParquetWriter`. The first component is how the call ends,
the second is the content of the caller's slice `columns` when it ends. -/
def NewParquetWriter {ρ σ ω : Type} (lib : ParquetLib σ ω) (derive : Column → ReflectType)
    (MakeDecNumScale : Int → ρ) (columns : Columns) (codec : String) :
    Outcome (ParquetWriter ρ ω) × Columns :=
  let st := NewParquetWriter.loop MakeDecNumScale columns
  match lib.NewWriterConfig with
  | .error err => (.error ("could not create parquet writer config: " ++ err), st.1)
  | .ok _ =>
    match getParquetSchema lib derive st.1 with
    | none => (.fault, st.1)
    | some schema =>
      match lib.NewWriter schema codec with
      | none => (.fault, st.1)
      | some fw => (.ok { Writer := fw, columns := st.1, decNumScale := st.2 }, st.1)

/-- The `switch` of `WriteRow` for column `i`: the row after the case that
applies, `none` when the case indexes `row` or `decNumScale` out of range or
`StringToDecimalByteArray` panics. -/
def WriteRow.coerce {ρ ω : Type} (cast : CastLib ρ) (pw : ParquetWriter ρ ω) (col : Column)
    (i : Nat) (row : List Any) : Option (List Any) :=
  if col.IsBool then
    match row[i]? with
    | none => none
    | some v => some (row.set i (.bool (cast.ToBool v)))
  else if col.Type_ = FloatType then
    match row[i]? with
    | none => none
    | some v => some (row.set i (.float64 (cast.ToFloat64 v)))
  else if col.Type_ = DecimalType then
    match row[i]?, pw.decNumScale[i]? with
    | some v, some numSca =>
      match cast.StringToDecimalByteArray (cast.ToString v) numSca 16 with
      | none => none
      | some decBytes => some (row.set i (.bytes decBytes))
    | _, _ => none
  else if col.IsDatetime then
    match row[i]? with
    | none => none
    | some (.time valT) =>
      match col.DbPrecision with
      | 3 => some (row.set i (.int64 valT.UnixMilli))
      | 6 => some (row.set i (.int64 valT.UnixMicro))
      | 9 => some (row.set i (.int64 valT.UnixNano))
      | _ => some (row.set i (.int64 valT.UnixNano))
    | some _ => some row
  else some row

/-- One pass of the loop of `WriteRow` on the pair of the caller's `row` and
the physical row `rec`; `none` once a pass has panicked, in the `switch` or in
`parquet.ValueOf`. -/
def WriteRow.step {ρ σ ω : Type} (lib : ParquetLib σ ω) (cast : CastLib ρ)
    (pw : ParquetWriter ρ ω) (st : Option (List Any × List Value)) (i : Nat) :
    Option (List Any × List Value) :=
  match st with
  | none => none
  | some (row, rec) =>
    match pw.columns[i]? with
    | none => some (row, rec)
    | some col =>
      match WriteRow.coerce cast pw col i row with
      | none => none
      | some row =>
        match row[i]? with
        | some v =>
          match lib.ValueOf v with
          | none => none
          | some value => some (row, rec.set i value)
        | none => some (row, rec)

/-- The loop of `WriteRow`, started on `make([]parquet.Value, len(pw.columns))`. -/
def WriteRow.loop {ρ σ ω : Type} (lib : ParquetLib σ ω) (cast : CastLib ρ)
    (pw : ParquetWriter ρ ω) (row : List Any) : Option (List Any × List Value) :=
  (List.range pw.columns.length).foldl (WriteRow.step lib cast pw)
    (some (row, List.replicate pw.columns.length .zero))

/-- What a call of `WriteRow` leaves: how it ends, the caller's `row` slice and
the physical row handed to `Writer.WriteRows` (when the loop got that far). -/
structure WriteRowResult where
  outcome : Outcome Unit
  row : List Any
  emitted : Option (List Value)
  deriving DecidableEq, Repr

/-- The method `ParquetWriter.WriteRow`. When the loop panics the content of
`row` at that point is not tracked and the caller's row is reported as
given. -/
def ParquetWriter.WriteRow {ρ σ ω : Type} (lib : ParquetLib σ ω) (cast : CastLib ρ)
    (pw : ParquetWriter ρ ω) (row : List Any) : WriteRowResult :=
  match WriteRow.loop lib cast pw row with
  | none => { outcome := .fault, row := row, emitted := none }
  | some (row, rec) =>
    match lib.WriteRows pw.Writer [rec] with
    | .fault => { outcome := .fault, row := row, emitted := some rec }
    | .error err =>
      { outcome := .error ("error writing row: " ++ err), row := row, emitted := some rec }
    | .ok _ => { outcome := .ok (), row := row, emitted := some rec }

/-! ## The reader -/

/-- A field of the schema of an open file, as `Columns` reads it: its name and
its type, `none` when `Type()` returns nil. -/
structure Field where
  Name : String
  Type_ : Option ParquetType
  deriving DecidableEq, Repr

/-- How one call of `Reader.Read` ends: a decoded row (its keys and values in
the order the `range` over the map visits them), `io.EOF`, another error, or
a panic. -/
inductive ReadResult where
  | row (m : List (String × Any))
  | eof
  | err (cause : String)
  | fault (r : String)
  deriving DecidableEq, Repr

/-- A `*parquet.Reader`: the fields of its schema and the results its
next calls of `Read` will have; once they are used up every call is `io.EOF`. -/
structure Reader where
  Schema : List Field
  pending : List ReadResult
  deriving DecidableEq, Repr

/-- The method `Reader.Read`. -/
def Reader.Read (r : Reader) : ReadResult × Reader :=
  match r.pending with
  | [] => (.eof, r)
  | res :: rest => (res, { r with pending := rest })

/-- A Go `map[string]int` as the list of its assignments, newest first. -/
abbrev StringIntMap := List (String × Int)

/-- Indexing a Go map: the value of the newest assignment of the key, the zero
value when there is none. -/
def StringIntMap.index (m : StringIntMap) (k : String) : Int :=
  match m.lookup k with
  | some v => v
  | none => 0

/-- The type `Parquet`. -/
structure Parquet where
  Reader : Reader
  colMap : StringIntMap
  deriving DecidableEq, Repr

/-- The map literal `typeMap` of `Columns`. -/
def typeMap : List (ParquetType × ColumnType) :=
  [ (.BooleanType, BoolType),
    (.Int32Type, IntegerType),
    (.Int64Type, BigIntType),
    (.Int96Type, BigIntType),
    (.FloatType, DecimalType),
    (.DoubleType, DecimalType),
    (.ByteArrayType, StringType) ]

/-- The expression `typeMap[colType]`: the entry of the key, and the zero
value of `ColumnType` for a key the literal does not list. The declaration of
`ColumnType` is in another file, so its zero value is the parameter `zero`. -/
def typeMapIndex (zero : ColumnType) (colType : ParquetType) : ColumnType :=
  match typeMap.lookup colType with
  | some t => t
  | none => zero

/-- The helper `g.In`: whether the value is one of the listed ones. -/
def g.In (val : ColumnType) (vals : List ColumnType) : Bool := decide (val ∈ vals)

/-- One pass of the loop of `Columns`. The fields the literal leaves out keep
their zero value. -/
def Parquet.Columns.step (CleanName : String → String) (zero : ColumnType)
    (cols : Columns) (field : Field) : Columns :=
  let colType : ParquetType :=
    match field.Type_ with
    | none => .ByteArrayType
    | some t => t
  let c : Column :=
    { Name := CleanName field.Name
      Type_ := typeMapIndex zero colType
      Position := (cols.length : Int) + 1
      Sourced := !(g.In (typeMapIndex zero colType) [DecimalType])
      DbPrecision := 0
      DbScale := 0
      goType := none }
  cols ++ [c]

/-- The method `Parquet.Columns`. `CleanName` is declared in another file of
the package and is a parameter. -/
def Parquet.Columns (CleanName : String → String) (zero : ColumnType) (p : Parquet) : Columns :=
  p.Reader.Schema.foldl (Parquet.Columns.step CleanName zero) []

/-- Modelled from the spec: the method `Columns.FieldMap`, declared in another
file of the package; it maps the name of every column (lower-cased when
`toLower` is set, "name lookups are case-insensitive") to the index of the
column in the collection. -/
def Columns.FieldMap (lower : String → String) (cols : Columns) (toLower : Bool) :
    StringIntMap :=
  (List.range cols.length).foldl
    (fun m i =>
      match cols[i]? with
      | none => m
      | some col => ((if toLower then lower col.Name else col.Name), (i : Int)) :: m)
    []

/-- The function `NewParquetReader`, given the reader `parquet.NewReader`
returns. The argument `columns` is not read, and the error test is on a
result that is always nil. `lower` is `strings.ToLower`. -/
def NewParquetReader (CleanName : String → String) (zero : ColumnType)
    (lower : String → String) (pr : Reader) (_columns : Columns) : Parquet :=
  let p : Parquet := { Reader := pr, colMap := [] }
  { p with colMap := Columns.FieldMap lower (p.Columns CleanName zero) true }

/-- An error handed to `Context.CaptureErr`: the wrapped read error, or the
error made from a recovered panic value. The panic value of an index out of
range is kept as the text `index out of range`, without the index and the
length the runtime adds. -/
inductive CapturedErr where
  | readError (cause : String)
  | panicError (r : String)
  deriving DecidableEq, Repr

/-- The datastream of an iterator, of which `nextFunc` reads the columns. -/
structure Datastream where
  Columns : Columns
  deriving DecidableEq, Repr

/-- The iterator: the current row, its datastream and the errors its context
has captured, oldest first. -/
structure Iterator where
  Row : List Any
  ds : Datastream
  captured : List CapturedErr
  deriving DecidableEq, Repr

/-- The call `it.Context.CaptureErr(err)`. -/
def Iterator.CaptureErr (it : Iterator) (err : CapturedErr) : Iterator :=
  { it with captured := it.captured ++ [err] }

/-- Reading `xs[i]` for a Go `int` index: `none` is the index-out-of-range
panic. -/
def indexInt? {α : Type} (xs : List α) (i : Int) : Option α :=
  if i < 0 then none else xs[i.toNat]?

/-- The loop of `nextFunc` over the decoded row. `.ok` carries `it.Row` after
the last key; `.error` carries `it.Row` at the key whose column index or slot
is out of range, where the loop panics. `lower` is `strings.ToLower`. -/
def nextFunc.place (lower : String → String) (colMap : StringIntMap) (columns : Columns) :
    List (String × Any) → List Any → Except (List Any) (List Any)
  | [], Row => .ok Row
  | (k, v) :: rest, Row =>
    match indexInt? columns (colMap.index (lower k)) with
    | none => .error Row
    | some col =>
      let i := col.Position - 1
      if 0 ≤ i ∧ i < Row.length then
        nextFunc.place lower colMap columns rest (Row.set i.toNat v)
      else .error Row

/-- The method `Parquet.nextFunc`, with its deferred `recover`: the result,
the receiver after the read and the iterator. A panic leaves the function
through the deferred call, which captures an error, and the unnamed result is
then `false`. -/
def Parquet.nextFunc (lower : String → String) (p : Parquet) (it : Iterator) :
    Bool × Parquet × Iterator :=
  let (res, rd) := p.Reader.Read
  let p : Parquet := { p with Reader := rd }
  match res with
  | .fault r => (false, p, it.CaptureErr (.panicError r))
  | .eof => (false, p, it)
  | .err cause => (false, p, it.CaptureErr (.readError cause))
  | .row row =>
    let it : Iterator := { it with Row := List.replicate it.ds.Columns.length .nil }
    match nextFunc.place lower p.colMap it.ds.Columns row it.Row with
    | .ok Row => (true, p, { it with Row := Row })
    | .error Row =>
      (false, p, Iterator.CaptureErr { it with Row := Row } (.panicError "index out of range"))

/-- Calling `nextFunc` up to `n` times and keeping the rows of the calls that
returned true, until one returns false: the rows, the receiver and the
iterator at that point, and whether a call returned false. -/
def drain (lower : String → String) : Nat → Parquet → Iterator →
    List (List Any) × Parquet × Iterator × Bool
  | 0, p, it => ([], p, it, false)
  | n + 1, p, it =>
    match Parquet.nextFunc lower p it with
    | (false, p, it) => ([], p, it, true)
    | (true, p, it) =>
      let (rows, p2, it2, stopped) := drain lower n p it
      (it.Row :: rows, p2, it2, stopped)

/-! ## Closed forms and the wording of the specification

The definitions of this section are not translations of code. They state, as
plain functions, what the loops above are proved to compute, and what the
specification says they compute. -/

/-- The precision line 117 leaves in a column, as a function of the declared
one. -/
def effectivePrecision (precision : Int) : Int :=
  if precision = 0 then 28 else if precision > 36 then 36 else precision

/-- The scale line 118 leaves in a column, as a function of the declared one. -/
def effectiveScale (scale : Int) : Int :=
  if scale = 0 then 9 else if scale > 16 then 16 else scale

/-- The column lines 117 to 119 store back for a declared column. -/
def Column.effective (col : Column) : Column :=
  { col with
    DbPrecision := effectivePrecision col.DbPrecision
    DbScale := effectiveScale col.DbScale }

/-- The argument lines 121 to 125 pass to `MakeDecNumScale` for a column whose
stored scale is `scale`. -/
def scaleArgument (scale : Int) : Int := if scale > 0 then scale else 1

/-- The specification wording "clamp into the inclusive range [low, high]". -/
def clampInto (low high x : Int) : Int := max low (min high x)

/-- The specification wording for the precision: "clamp precision to the
inclusive range [1, 36] (default 28 when unset)". -/
def specPrecision (precision : Int) : Int :=
  if precision = 0 then 28 else clampInto 1 36 precision

/-- The specification wording for the scale: "scale to [0, 16] (default 9 when
unset)". -/
def specScale (scale : Int) : Int :=
  if scale = 0 then 9 else clampInto 0 16 scale

/-- Modelled from the spec: the helper `MakeDecNumScale`, declared in another
file of the package; "a precomputed rational multiplier derived from a
column's scale", "the multiplier converting a decimal's textual value into its
fixed-width integer encoding at a given scale", that is ten to the power of
the scale. It is used to instantiate the parameter of `NewParquetWriter` on
concrete inputs only. -/
def MakeDecNumScale (scale : Int) : ℚ := 10 ^ scale.toNat

/-- The value an `Outcome` returns, when it returns one. -/
def Outcome.value? {α : Type} : Outcome α → Option α
  | .ok value => some value
  | .error _ => none
  | .fault => none

/-- Whether an `Outcome` is a returned error. -/
def Outcome.isError {α : Type} : Outcome α → Bool
  | .error _ => true
  | _ => false

/-- The representations for which `nodeOf` reaches its last line with `n` still
nil: the kinds its `switch` has no case for, and the arrays whose elements are
not bytes. The three types of its first `switch` are not among them. -/
def unsupportedType : ReflectType → Bool
  | .Complex64 => true
  | .Complex128 => true
  | .UnsafePointer => true
  | .Interface => true
  | .Func => true
  | .Struct => true
  | .Chan _ => true
  | .Array _ elem => decide (elem.Kind ≠ Kind.Uint8)
  | _ => false

/-- The logical type the table of the specification gives a schema field,
with `zero` for the physical types the table does not list. -/
def fieldColumnType (zero : ColumnType) : Option ParquetType → ColumnType
  | none => StringType
  | some .BooleanType => BoolType
  | some .Int32Type => IntegerType
  | some .Int64Type => BigIntType
  | some .Int96Type => BigIntType
  | some .FloatType => DecimalType
  | some .DoubleType => DecimalType
  | some .ByteArrayType => StringType
  | some (.FixedLenByteArrayType _) => zero
  | some (.logical _) => zero

/-- The column `Columns` makes of the field at index `i` of the schema. -/
def fieldColumn (CleanName : String → String) (zero : ColumnType) (i : Nat) (field : Field) :
    Column :=
  { Name := CleanName field.Name
    Type_ := fieldColumnType zero field.Type_
    Position := (i : Int) + 1
    Sourced := decide (fieldColumnType zero field.Type_ ≠ DecimalType)
    DbPrecision := 0
    DbScale := 0
    goType := none }

/-- The slot of the generic row the loop of `nextFunc` writes for the key `k`:
the position, less one, of the catalog column at the index the name map of
the reader gives the lower-cased key. `none` when that index is outside the
catalog. -/
def nextFunc.slot (lower : String → String) (colMap : StringIntMap) (columns : Columns)
    (k : String) : Option Int :=
  (indexInt? columns (colMap.index (lower k))).map (fun col => col.Position - 1)

/-- The value the `switch` of `WriteRow` leaves in `row[i]` for a column, the
scale factor of its index and the value `row[i]` held; `none` when
`StringToDecimalByteArray` panics. -/
def WriteRow.cell {ρ : Type} (cast : CastLib ρ) (col : Column) (numSca : Option ρ) (v : Any) :
    Option Any :=
  if col.IsBool then some (.bool (cast.ToBool v))
  else if col.Type_ = FloatType then some (.float64 (cast.ToFloat64 v))
  else if col.Type_ = DecimalType then
    (cast.StringToDecimalByteArray (cast.ToString v) numSca 16).map .bytes
  else if col.IsDatetime then
    match v with
    | .time valT =>
      if col.DbPrecision = 3 then some (.int64 valT.UnixMilli)
      else if col.DbPrecision = 6 then some (.int64 valT.UnixMicro)
      else some (.int64 valT.UnixNano)
    | _ => some v
  else some v

/-- The parquet value one pass of the loop of `WriteRow` stores in `rec[i]`:
`parquet.ValueOf` of what the `switch` leaves in the slot; `none` when the
`switch` or `parquet.ValueOf` panics. -/
def WriteRow.emit {ρ σ ω : Type} (lib : ParquetLib σ ω) (cast : CastLib ρ) (col : Column)
    (numSca : Option ρ) (v : Any) : Option Value :=
  (WriteRow.cell cast col numSca v).bind lib.ValueOf

/-- The number of time units since the epoch the specification asks of a
datetime column of the given stored precision, before any reduction to 64
bits. -/
def specUnits (precision : Int) (t : Time) : Int :=
  if precision = 3 then t.sec * 1000 + (t.nsec : Int) / 1000000
  else if precision = 6 then t.sec * 1000000 + (t.nsec : Int) / 1000
  else t.sec * 1000000000 + (t.nsec : Int)

/-! ## Concrete inputs -/

/-- A `parquet` library whose calls to build a schema, build a writer and
write rows all succeed and return what they were given, and whose `ValueOf`
panics on the Go values of a type it has no case for (`Any.other`). -/
def recordingLib : ParquetLib RecNode (RecNode × String) :=
  { NewWriterConfig := .ok ()
    NewSchema := fun _ root => some root
    NewWriter := fun schema codec => some (schema, codec)
    ValueOf := fun v =>
      match v with
      | .other _ => none
      | v => some (.of v)
    WriteRows := fun _ _ => .ok () }

/-- Whether a node holds no physical node somewhere a call through it would
reach: a wrapper around the nil node, or an optional or repeated node around
such a wrapper. -/
def Node.missing : Node → Bool
  | .nil => true
  | .goNode node _ => node.missing
  | .Optional n => n.missing
  | .Repeated n => n.missing
  | _ => false

/-- A `parquet` library as `recordingLib`, except that `NewSchema` panics on a
tree one of whose fields holds no physical node, as a method call through the
nil `parquet.Node` embedded in the wrapper does. -/
def strictLib : ParquetLib RecNode (RecNode × String) :=
  { recordingLib with
    NewSchema := fun _ root =>
      if root.fields.any (fun f => f.Node.missing) then none else some root }

/-- A choice of the representation of a column whose `goType` is nil: a Go
string. -/
def deriveString (_col : Column) : ReflectType := .String

/-- Conversions that are constant, for inputs whose columns do not call them. -/
def constCast : CastLib ℚ :=
  { ToBool := fun _ => false
    ToFloat64 := fun _ => 0
    ToString := fun _ => ""
    StringToDecimalByteArray := fun _ _ _ => some [] }

/-- A column with the given name, type, position, precision and scale, sourced
and with no representation assigned. -/
def mkColumn (name : String) (type : ColumnType) (position precision scale : Int) : Column :=
  { Name := name, Type_ := type, Position := position, DbPrecision := precision,
    DbScale := scale, Sourced := true, goType := none }

/-- Catalog with one decimal column that declares neither precision nor scale. -/
def unsetDecimalCatalog : Columns := [mkColumn "amt" DecimalType 1 0 0]

/-- Catalog with one decimal column of negative precision and negative scale,
held as a Go `float64`. -/
def negativeDecimalCatalog : Columns :=
  [{ mkColumn "amt" DecimalType 1 (-5) (-3) with goType := some .Float64 }]

/-- Catalog with a big-integer column and a decimal column of precision 10 and
scale 2 held as a Go `float64`, the catalog of the end-to-end example. -/
def exampleCatalog : Columns :=
  [ { mkColumn "id" BigIntType 1 0 0 with goType := some .Int64 },
    { mkColumn "amt" DecimalType 2 10 2 with goType := some .Float64 } ]

/-- Catalog with one string-typed column whose representation is a struct. -/
def structCatalog : Columns :=
  [{ mkColumn "payload" StringType 1 0 0 with goType := some .Struct }]

/-- The writer `NewParquetWriter` returns for `exampleCatalog`, the codec
`snappy` and `recordingLib`. -/
def exampleWriter : ParquetWriter ℚ (RecNode × String) :=
  { Writer := (NewRecNode deriveString (exampleCatalog.map Column.effective), "snappy")
    columns := exampleCatalog.map Column.effective
    decNumScale := [some (MakeDecNumScale 9), some (MakeDecNumScale 2)] }

/-- Catalog with one datetime column of unset precision and one of precision
3. -/
def datetimeCatalog : Columns :=
  [ mkColumn "created" .datetime 1 0 0, mkColumn "seen" .datetime 2 3 0 ]

/-- The writer `NewParquetWriter` returns for `datetimeCatalog`, the empty
codec and `recordingLib`. -/
def datetimeWriter : ParquetWriter ℚ (RecNode × String) :=
  { Writer := (NewRecNode deriveString (datetimeCatalog.map Column.effective), "")
    columns := datetimeCatalog.map Column.effective
    decNumScale := [some (MakeDecNumScale 9), some (MakeDecNumScale 9)] }

/-- The instant 2286-11-20T17:46:40Z, ten to the tenth seconds after the
epoch. -/
def farTime : Time := { sec := 10000000000, nsec := 0 }

/-- The instant 2001-09-09T01:46:40.123456789Z. -/
def nearTime : Time := { sec := 1000000000, nsec := 123456789 }

/-- The schema of a file with a fixed-length byte array field and a field of
the string logical type. -/
def sampleSchema : List Field :=
  [ { Name := "digest", Type_ := some (.FixedLenByteArrayType 16) },
    { Name := "label", Type_ := some (.logical "STRING") },
    { Name := "flag", Type_ := some .BooleanType },
    { Name := "raw", Type_ := none } ]

/-- A reader over a file whose fields are `ID` then `NAME`, with one row to
read, of which only the key `ID` is listed. -/
def idNameReader : Reader :=
  { Schema := [ { Name := "ID", Type_ := some .Int64Type },
                { Name := "NAME", Type_ := some .ByteArrayType } ]
    pending := [.row [("ID", .int64 7)]] }

/-- A reader over the same file with two rows followed by a read that panics,
and with more rows behind it. -/
def faultyReader : Reader :=
  { Schema := idNameReader.Schema
    pending :=
      [ .row [("ID", .int64 1), ("NAME", .string "a")],
        .row [("NAME", .string "b"), ("ID", .int64 2)],
        .fault "page header",
        .row [("ID", .int64 4), ("NAME", .string "d")] ] }

/-- A catalog that lists `name` before `id`. -/
def nameIdCatalog : Columns :=
  [ mkColumn "name" StringType 1 0 0, mkColumn "id" BigIntType 2 0 0 ]

/-- A catalog that lists `id` before `name`, the order of the file. -/
def idNameCatalog : Columns :=
  [ mkColumn "id" BigIntType 1 0 0, mkColumn "name" StringType 2 0 0 ]

/-- Lower-casing of the letters A to Z, the part of `strings.ToLower` the
concrete inputs need. -/
def asciiLower (s : String) : String := String.mk (s.data.map Char.toLower)

/-- An iterator over the given catalog with no row and no captured error. -/
def freshIterator (columns : Columns) : Iterator :=
  { Row := [], ds := { Columns := columns }, captured := [] }


/-! ## Loops over an index range -/

/-- Induction along a loop `for i := 0; i < n; i++`: a property that holds
before the loop and is carried from pass `k` to pass `k + 1` holds after it. -/
theorem foldl_range_inv {σ : Type} (step : σ → Nat → σ) (P : Nat → σ → Prop) (s0 : σ) (n : Nat)
    (h0 : P 0 s0) (hstep : ∀ k s, k < n → P k s → P (k + 1) (step s k)) :
    P n ((List.range n).foldl step s0) := by
  have key : ∀ m, m ≤ n → P m ((List.range m).foldl step s0) := by
    intro m
    induction m with
    | zero => intro _; simpa using h0
    | succ k ih =>
      intro hk
      rw [List.range_succ, List.foldl_append]
      exact hstep k _ (by omega) (ih (by omega))
  exact key n (Nat.le_refl n)

/-- The field `NewRecNode` builds for a column. -/
theorem NewRecNode_fields (derive : Column → ReflectType) (cols : Columns) :
    (NewRecNode derive cols).fields =
      cols.map (fun col =>
        ({ name := col.Name, index := [col.Position - 1], Node := nodeOf derive col [] } :
          structField)) := by
  have inv := foldl_range_inv (NewRecNode.step derive cols)
    (fun k fields => fields.length = cols.length ∧
      ∀ j, j < k → fields[j]? = cols[j]?.map (fun col =>
        ({ name := col.Name, index := [col.Position - 1], Node := nodeOf derive col [] } :
          structField)))
    (List.replicate cols.length { Node := .nil, name := "", index := [] }) cols.length
    (by simp)
    (by
      intro k s hk hs
      obtain ⟨hlen, hget⟩ := hs
      have hc : cols[k]? = some cols[k] := List.getElem?_eq_getElem hk
      simp only [NewRecNode.step, hc]
      refine ⟨by simp [hlen], ?_⟩
      intro j hj
      rw [List.getElem?_set]
      by_cases hkj : k = j
      · subst hkj
        simp [hlen, hk, hc]
      · simp only [hkj, if_false]
        exact hget j (by omega))
  obtain ⟨hlen, hget⟩ := inv
  apply List.ext_getElem?
  intro j
  by_cases hj : j < cols.length
  · simpa [NewRecNode] using hget j hj
  · have h1 : (NewRecNode derive cols).fields.length ≤ j := by
      simp only [NewRecNode]; omega
    rw [List.getElem?_eq_none h1]
    simp [List.getElem?_eq_none (Nat.le_of_not_lt hj)]

/-- The slice `Fields` returns lists the fields of the node in their order. -/
theorem Fields_eq (rn : RecNode) : rn.Fields = rn.fields := by
  simp [RecNode.Fields, List.ofFn_get]


/-! ## The loop of `NewParquetWriter` -/

/-- The nested `lo.Ternary` of line 117 is `effectivePrecision`. -/
theorem ternary_precision (p : Int) :
    lo.Ternary (p == 0) 28 (lo.Ternary (decide (p > 36)) 36 p) = effectivePrecision p := by
  unfold lo.Ternary effectivePrecision
  by_cases h0 : p = 0
  · simp [h0]
  · by_cases h1 : p > 36 <;> simp [h0, h1]

/-- The nested `lo.Ternary` of line 118 is `effectiveScale`. -/
theorem ternary_scale (s : Int) :
    lo.Ternary (s == 0) 9 (lo.Ternary (decide (s > 16)) 16 s) = effectiveScale s := by
  unfold lo.Ternary effectiveScale
  by_cases h0 : s = 0
  · simp [h0]
  · by_cases h1 : s > 16 <;> simp [h0, h1]

/-- One pass of the loop on a column that is present: the column is replaced by
its effective form and the scale factor of its index is assigned. -/
theorem NewParquetWriter_step_some {ρ : Type} (mk : Int → ρ) (st : Columns × List (Option ρ))
    (i : Nat) (col : Column) (h : st.1[i]? = some col) :
    NewParquetWriter.step mk st i =
      (st.1.set i col.effective,
        st.2.set i (some (mk (scaleArgument (effectiveScale col.DbScale))))) := by
  simp only [NewParquetWriter.step, h, ternary_precision, ternary_scale]
  by_cases hs : effectiveScale col.DbScale > 0
  · simp [hs, scaleArgument, Column.effective]
  · simp [hs, scaleArgument, Column.effective]

/-- The loop replaces every column by its effective form and fills every entry
of `decNumScale`. -/
theorem NewParquetWriter_loop_eq {ρ : Type} (mk : Int → ρ) (columns : Columns) :
    NewParquetWriter.loop mk columns =
      (columns.map Column.effective,
        columns.map (fun col => some (mk (scaleArgument (effectiveScale col.DbScale))))) := by
  have inv := foldl_range_inv (NewParquetWriter.step mk)
    (fun k st => st.1.length = columns.length ∧ st.2.length = columns.length ∧
      ∀ j, (st.1[j]? = if j < k then columns[j]?.map Column.effective else columns[j]?) ∧
        (j < k → st.2[j]? =
          columns[j]?.map (fun col => some (mk (scaleArgument (effectiveScale col.DbScale))))))
    (columns, List.replicate columns.length none) columns.length
    (by simp)
    (by
      intro k st hk hst
      obtain ⟨hl1, hl2, hget⟩ := hst
      have hc : columns[k]? = some columns[k] := List.getElem?_eq_getElem hk
      have hk1 : st.1[k]? = some columns[k] := by
        rw [(hget k).1]; simp [hc]
      rw [NewParquetWriter_step_some mk st k _ hk1]
      refine ⟨by simp [hl1], by simp [hl2], ?_⟩
      intro j
      by_cases hkj : k = j
      · subst hkj
        simp [List.getElem?_set, hl1, hl2, hk, hc]
      · have h1 := (hget j).1
        have h2 := (hget j).2
        constructor
        · rw [List.getElem?_set, if_neg hkj, h1]
          by_cases hj : j < k
          · simp [hj, Nat.lt_succ_of_lt hj]
          · have : ¬ j < k + 1 := by omega
            simp [hj, this]
        · intro hj
          rw [List.getElem?_set, if_neg hkj]
          exact h2 (by omega))
  obtain ⟨hl1, hl2, hget⟩ := inv
  apply Prod.ext
  · apply List.ext_getElem?
    intro j
    show (NewParquetWriter.loop mk columns).1[j]? = _
    by_cases hj : j < columns.length
    · have := (hget j).1
      simpa [NewParquetWriter.loop, hj] using this
    · have h1 : (NewParquetWriter.loop mk columns).1.length ≤ j := by
        simp only [NewParquetWriter.loop]; omega
      rw [List.getElem?_eq_none h1]
      simp [List.getElem?_eq_none (Nat.le_of_not_lt hj)]
  · apply List.ext_getElem?
    intro j
    show (NewParquetWriter.loop mk columns).2[j]? = _
    by_cases hj : j < columns.length
    · have := (hget j).2 hj
      simpa [NewParquetWriter.loop] using this
    · have h1 : (NewParquetWriter.loop mk columns).2.length ≤ j := by
        simp only [NewParquetWriter.loop]; omega
      rw [List.getElem?_eq_none h1]
      simp [List.getElem?_eq_none (Nat.le_of_not_lt hj)]

/-- The caller's slice after `NewParquetWriter`, however the call ends. -/
theorem NewParquetWriter_snd {ρ σ ω : Type} (lib : ParquetLib σ ω)
    (derive : Column → ReflectType) (mk : Int → ρ) (columns : Columns) (codec : String) :
    (NewParquetWriter lib derive mk columns codec).2 = columns.map Column.effective := by
  unfold NewParquetWriter
  simp only [NewParquetWriter_loop_eq]
  cases lib.NewWriterConfig with
  | error e => rfl
  | ok u =>
    simp only
    cases getParquetSchema lib derive (columns.map Column.effective) with
    | none => rfl
    | some schema =>
      simp only
      cases lib.NewWriter schema codec <;> rfl

/-- The writer `NewParquetWriter` returns, when it returns one. -/
theorem NewParquetWriter_ok {ρ σ ω : Type} (lib : ParquetLib σ ω)
    (derive : Column → ReflectType) (mk : Int → ρ) (columns : Columns) (codec : String)
    (pw : ParquetWriter ρ ω) (h : (NewParquetWriter lib derive mk columns codec).1 = .ok pw) :
    pw.columns = columns.map Column.effective ∧
      pw.decNumScale =
        columns.map (fun col => some (mk (scaleArgument (effectiveScale col.DbScale)))) ∧
      lib.NewWriterConfig = .ok () ∧
      ∃ schema, lib.NewSchema "" (NewRecNode derive (columns.map Column.effective)) = some schema ∧
        lib.NewWriter schema codec = some pw.Writer := by
  unfold NewParquetWriter at h
  simp only [NewParquetWriter_loop_eq, getParquetSchema] at h
  cases hc : lib.NewWriterConfig with
  | error e => simp [hc] at h
  | ok u =>
    simp only [hc] at h
    cases hs : lib.NewSchema "" (NewRecNode derive (columns.map Column.effective)) with
    | none => simp [hs] at h
    | some schema =>
      simp only [hs] at h
      cases hw : lib.NewWriter schema codec with
      | none => simp [hw] at h
      | some fw =>
        simp only [hw, Outcome.ok.injEq] at h
        subst h
        exact ⟨rfl, rfl, rfl, schema, rfl, hw⟩


/-! ## Clamping of precision and scale -/

/-- On a precision that is not negative the code agrees with the wording of
the specification, and the result lies between 1 and 36. -/
theorem effectivePrecision_nonneg (p : Int) (h : 0 ≤ p) :
    effectivePrecision p = specPrecision p ∧ 1 ≤ effectivePrecision p ∧
      effectivePrecision p ≤ 36 := by
  unfold effectivePrecision specPrecision clampInto
  by_cases h0 : p = 0
  · simp [h0]
  · by_cases h1 : p > 36
    · simp only [h0, h1, if_false, if_true]; omega
    · simp only [h0, h1, if_false]; omega

/-- On a scale that is not negative the code agrees with the wording of the
specification, and the result lies between 1 and 16. -/
theorem effectiveScale_nonneg (s : Int) (h : 0 ≤ s) :
    effectiveScale s = specScale s ∧ 1 ≤ effectiveScale s ∧ effectiveScale s ≤ 16 := by
  unfold effectiveScale specScale clampInto
  by_cases h0 : s = 0
  · simp [h0]
  · by_cases h1 : s > 16
    · simp only [h0, h1, if_false, if_true]; omega
    · simp only [h0, h1, if_false]; omega

/-- A negative precision or scale is kept as it is. -/
theorem effective_neg (x : Int) (h : x < 0) :
    effectivePrecision x = x ∧ effectiveScale x = x := by
  unfold effectivePrecision effectiveScale
  have h0 : x ≠ 0 := by omega
  have h1 : ¬ x > 36 := by omega
  have h2 : ¬ x > 16 := by omega
  simp [h0, h1, h2]

/-- `nodeOf` on a decimal column whose representation is none of the three
types of the first `switch`. -/
theorem nodeOfType_decimal (col : Column) (t : ReflectType) (hdec : col.Type_ = DecimalType)
    (h96 : t ≠ .Int96) (hu : t ≠ .UUID) (htime : t ≠ .Time) :
    nodeOfType col t =
      .goNode (.Decimal col.DbScale col.DbPrecision (.FixedLenByteArrayType 16)) t := by
  have hne : DecimalType ≠ FloatType := by decide
  cases t <;> first | contradiction | simp [nodeOfType, hdec, hne]

/-- `nodeOf` on a column of an unsupported representation whose logical type
is neither float nor decimal: the wrapper holds no node. -/
theorem nodeOfType_unsupported (col : Column) (t : ReflectType) (hf : col.Type_ ≠ FloatType)
    (hd : col.Type_ ≠ DecimalType) (ht : unsupportedType t = true) :
    nodeOfType col t = .goNode .nil t := by
  cases t <;> simp_all [nodeOfType, unsupportedType]

/-- `NewParquetWriter` returns an error exactly when `parquet.NewWriterConfig`
does. -/
theorem NewParquetWriter_isError_iff {ρ σ ω : Type} (lib : ParquetLib σ ω)
    (derive : Column → ReflectType) (mk : Int → ρ) (columns : Columns) (codec : String) :
    (NewParquetWriter lib derive mk columns codec).1.isError = true ↔
      ∃ err, lib.NewWriterConfig = .error err := by
  unfold NewParquetWriter
  cases hc : lib.NewWriterConfig with
  | error e => simp [Outcome.isError]
  | ok u =>
    simp only
    cases getParquetSchema lib derive (NewParquetWriter.loop mk columns).1 with
    | none => simp [Outcome.isError]
    | some schema =>
      simp only
      cases lib.NewWriter schema codec <;> simp [Outcome.isError]


/-! ## Claims about the schema tree and the writer -/

/-- C3: the record node `NewRecNode` builds for a catalog has as many fields as
the catalog has columns, and the field `Fields` returns at index `i` carries
the name of column `i` and the node `nodeOf` builds for column `i`. -/
theorem NewRecNode_fields_follow_catalog (derive : Column → ReflectType) (cols : Columns) :
    (NewRecNode derive cols).fields.length = cols.length ∧
      (NewRecNode derive cols).Fields.length = cols.length ∧
      (∀ i : Nat, ((NewRecNode derive cols).Fields[i]?).map (fun f => (f.Name, f.Node)) =
        (cols[i]?).map (fun col => (col.Name, nodeOf derive col []))) ∧
      (NewRecNode derive cols).Fields.map (fun f => (f.Name, f.Node)) =
        cols.map (fun col => (col.Name, nodeOf derive col [])) := by
  rw [Fields_eq, NewRecNode_fields]
  refine ⟨by simp, by simp, ?_, ?_⟩
  · intro i
    cases h : cols[i]? <;> simp [h, structField.Name]
  · simp [List.map_map, Function.comp_def, structField.Name]

/-- C1, counterexample: a declared precision of -5 and scale of -3 are stored
as -5 and -3, outside the ranges [1, 36] and [0, 16] into which the claim has
them clamped (to 1 and 0). -/
theorem negative_precision_and_scale_kept :
    (NewParquetWriter recordingLib deriveString MakeDecNumScale
        negativeDecimalCatalog "").1.value?.map
      (fun pw => pw.columns.map (fun c => (c.DbPrecision, c.DbScale))) = some [(-5, -3)] ∧
    specPrecision (-5) = 1 ∧ specScale (-3) = 0 := by
  refine ⟨by rfl, by decide, by decide⟩

/-- C1 (amended): the writer stores, for every column, the precision 28 when
the declared one is 0, 36 when it is above 36 and the declared one otherwise,
and the scale 9 when the declared one is 0, 16 when it is above 16 and the
declared one otherwise. For a declared value that is not negative this is the
clamping of the specification, with the precision in [1, 36] and the scale in
[1, 16]; a negative declared value is stored as it is. -/
theorem NewParquetWriter_stored_precision_scale {ρ σ ω : Type} (lib : ParquetLib σ ω)
    (derive : Column → ReflectType) (mk : Int → ρ) (columns : Columns) (codec : String)
    (pw : ParquetWriter ρ ω) (h : (NewParquetWriter lib derive mk columns codec).1 = .ok pw) :
    pw.columns.length = columns.length ∧
      (∀ (i : Nat) (col : Column), columns[i]? = some col →
        ∃ c, pw.columns[i]? = some c ∧
          c.DbPrecision = (if col.DbPrecision = 0 then 28
            else if col.DbPrecision > 36 then 36 else col.DbPrecision) ∧
          c.DbScale = (if col.DbScale = 0 then 9
            else if col.DbScale > 16 then 16 else col.DbScale) ∧
          (0 ≤ col.DbPrecision → c.DbPrecision = specPrecision col.DbPrecision ∧
            1 ≤ c.DbPrecision ∧ c.DbPrecision ≤ 36) ∧
          (0 ≤ col.DbScale → c.DbScale = specScale col.DbScale ∧
            1 ≤ c.DbScale ∧ c.DbScale ≤ 16) ∧
          (col.DbPrecision < 0 → c.DbPrecision = col.DbPrecision) ∧
          (col.DbScale < 0 → c.DbScale = col.DbScale)) ∧
      effectiveScale 0 = 9 ∧ effectivePrecision 0 = 28 ∧ effectiveScale 40 = 16 ∧
      effectivePrecision 100 = 36 := by
  obtain ⟨hcols, -, -, -⟩ := NewParquetWriter_ok lib derive mk columns codec pw h
  refine ⟨by simp [hcols], ?_, by decide, by decide, by decide, by decide⟩
  intro i col hi
  refine ⟨col.effective, by simp [hcols, hi], rfl, rfl, ?_, ?_, ?_, ?_⟩
  · exact effectivePrecision_nonneg col.DbPrecision
  · exact effectiveScale_nonneg col.DbScale
  · exact fun hneg => (effective_neg col.DbPrecision hneg).1
  · exact fun hneg => (effective_neg col.DbScale hneg).2

/-- C1, witness: the writer built for the catalog of the end-to-end example. -/
theorem NewParquetWriter_stored_precision_scale_witness :
    (NewParquetWriter recordingLib deriveString MakeDecNumScale exampleCatalog "snappy").1 =
        .ok exampleWriter ∧
      exampleWriter.columns.length = exampleCatalog.length :=
  ⟨by rfl, (NewParquetWriter_stored_precision_scale recordingLib deriveString MakeDecNumScale
    exampleCatalog "snappy" exampleWriter (by rfl)).1⟩

/-- C2, counterexample: for a decimal column of declared scale -3 the leaf of
the schema has scale -3 while the entry of `decNumScale` is built from the
scale 1. The first part keeps, in place of each factor, the scale
`MakeDecNumScale` is called with; the second part takes the factor to be ten
to the power of the scale. -/
theorem negative_scale_leaf_and_factor_differ :
    (NewParquetWriter recordingLib deriveString (fun scale => scale)
        negativeDecimalCatalog "").1.value?.map
      (fun pw => (pw.Writer.1.Fields.map (fun f => f.Node), pw.decNumScale)) =
      some ([.goNode (.Decimal (-3) (-5) (.FixedLenByteArrayType 16)) .Float64], [some 1]) ∧
    (NewParquetWriter recordingLib deriveString MakeDecNumScale
        negativeDecimalCatalog "").1.value?.map (fun pw => pw.decNumScale) =
      some [some (MakeDecNumScale 1)] ∧
    MakeDecNumScale 1 ≠ MakeDecNumScale (-3) := by
  refine ⟨by rfl, by rfl, ?_⟩
  show (10 : ℚ) ^ 1 ≠ 10 ^ 0
  norm_num

/-- C2 (amended): for every decimal column whose representation is none of
`deprecated.Int96`, `uuid.UUID` and `time.Time` and whose declared scale is not
negative, the field of the schema is the wrapper of a decimal over a 16-byte
fixed-length byte array with the stored scale and precision of the column, and
the entry of `decNumScale` at the index of the column is built from that same
scale. -/
theorem decimal_leaf_and_factor_share_scale {ρ σ ω : Type} (lib : ParquetLib σ ω)
    (derive : Column → ReflectType) (mk : Int → ρ) (columns : Columns) (codec : String)
    (pw : ParquetWriter ρ ω) (i : Nat) (col : Column)
    (h : (NewParquetWriter lib derive mk columns codec).1 = .ok pw)
    (hcol : columns[i]? = some col) (hdec : col.Type_ = DecimalType)
    (h96 : col.effective.GoType derive ≠ .Int96) (hu : col.effective.GoType derive ≠ .UUID)
    (htime : col.effective.GoType derive ≠ .Time) (hs : 0 ≤ col.DbScale) :
    (∃ schema, lib.NewSchema "" (NewRecNode derive pw.columns) = some schema ∧
        lib.NewWriter schema codec = some pw.Writer) ∧
      ((NewRecNode derive pw.columns).Fields[i]?).map (fun f => f.Node) =
        some (.goNode
          (.Decimal (specScale col.DbScale) (effectivePrecision col.DbPrecision)
            (.FixedLenByteArrayType 16))
          (col.effective.GoType derive)) ∧
      pw.decNumScale[i]? = some (some (mk (specScale col.DbScale))) ∧
      1 ≤ specScale col.DbScale ∧ specScale col.DbScale ≤ 16 := by
  obtain ⟨hcols, hdecs, -, hschema⟩ := NewParquetWriter_ok lib derive mk columns codec pw h
  obtain ⟨hspec, hge, hle⟩ := effectiveScale_nonneg col.DbScale hs
  refine ⟨?_, ?_, ?_, by omega, by omega⟩
  · rw [hcols]; exact hschema
  · rw [Fields_eq, NewRecNode_fields, hcols]
    simp only [List.getElem?_map, hcol, Option.map_some']
    have hd2 : col.effective.Type_ = DecimalType := hdec
    rw [nodeOf, nodeOfType_decimal col.effective _ hd2 h96 hu htime, ← hspec]
    rfl
  · rw [hdecs]
    have harg : scaleArgument (effectiveScale col.DbScale) = specScale col.DbScale := by
      rw [← hspec]; unfold scaleArgument
      have : effectiveScale col.DbScale > 0 := by omega
      simp [this]
    simp [hcol, harg]

/-- C2, witness: the decimal column of the catalog of the end-to-end example. -/
theorem decimal_leaf_and_factor_share_scale_witness :
    exampleCatalog[1]? = some ({ mkColumn "amt" DecimalType 2 10 2 with goType := some .Float64 }) ∧
      exampleWriter.decNumScale[1]? = some (some (MakeDecNumScale (specScale 2))) :=
  ⟨by rfl, (decimal_leaf_and_factor_share_scale recordingLib deriveString MakeDecNumScale
    exampleCatalog "snappy" exampleWriter 1
    ({ mkColumn "amt" DecimalType 2 10 2 with goType := some .Float64 })
    (by rfl) (by rfl) (by rfl) (by decide) (by decide) (by decide) (by decide)).2.2.1⟩

/-- C8, counterexample: after `NewParquetWriter` the column of the caller that
declared precision 0 and scale 0 holds precision 28 and scale 9. -/
theorem caller_catalog_is_rewritten :
    (NewParquetWriter recordingLib deriveString MakeDecNumScale unsetDecimalCatalog "").2 =
        [mkColumn "amt" DecimalType 1 28 9] ∧
      (NewParquetWriter recordingLib deriveString MakeDecNumScale unsetDecimalCatalog "").2 ≠
        unsetDecimalCatalog := by
  refine ⟨by rfl, by decide⟩

/-- C8 (amended): however the call ends, `NewParquetWriter` leaves in the
catalog of the caller the same columns in the same order, each with its name,
type, position, sourced flag and representation untouched and with its
precision and scale replaced by the stored ones; a column is left as it was
exactly when its precision is neither 0 nor above 36 and its scale is neither
0 nor above 16. -/
theorem NewParquetWriter_catalog_after {ρ σ ω : Type} (lib : ParquetLib σ ω)
    (derive : Column → ReflectType) (mk : Int → ρ) (columns : Columns) (codec : String) :
    (NewParquetWriter lib derive mk columns codec).2.length = columns.length ∧
      (∀ i : Nat, (NewParquetWriter lib derive mk columns codec).2[i]? =
        (columns[i]?).map (fun col =>
          { col with
            DbPrecision := (if col.DbPrecision = 0 then 28
              else if col.DbPrecision > 36 then 36 else col.DbPrecision)
            DbScale := (if col.DbScale = 0 then 9
              else if col.DbScale > 16 then 16 else col.DbScale) })) ∧
      (∀ col : Column, col.effective = col ↔
        (col.DbPrecision ≠ 0 ∧ col.DbPrecision ≤ 36 ∧ col.DbScale ≠ 0 ∧ col.DbScale ≤ 16)) := by
  rw [NewParquetWriter_snd]
  refine ⟨by simp, ?_, ?_⟩
  · intro i
    rw [List.getElem?_map]
    rfl
  · intro col
    cases col with
    | mk name type position precision scale sourced goType =>
      simp only [Column.effective, effectivePrecision, effectiveScale, Column.mk.injEq, true_and]
      constructor
      · rintro ⟨hp, hs⟩
        by_cases hp0 : precision = 0
        · simp [hp0] at hp
        · by_cases hp1 : precision > 36
          · simp only [hp0, hp1, if_false, if_true] at hp; omega
          · by_cases hs0 : scale = 0
            · simp [hs0] at hs
            · by_cases hs1 : scale > 16
              · simp only [hs0, hs1, if_false, if_true] at hs; omega
              · exact ⟨hp0, by omega, hs0, by omega⟩
      · rintro ⟨hp0, hp1, hs0, hs1⟩
        have hp2 : ¬ precision > 36 := by omega
        have hs2 : ¬ scale > 16 := by omega
        simp [hp0, hp2, hs0, hs2]

/-- How `NewParquetWriter` ends once `parquet.NewWriterConfig` has succeeded:
it panics when `parquet.NewSchema` panics on the tree of `NewRecNode` or
`parquet.NewWriter` panics on the schema, and returns the writer otherwise. -/
theorem NewParquetWriter_after_config {ρ σ ω : Type} (lib : ParquetLib σ ω)
    (derive : Column → ReflectType) (mk : Int → ρ) (columns : Columns) (codec : String)
    (hok : lib.NewWriterConfig = .ok ()) :
    (NewParquetWriter lib derive mk columns codec).1 =
      (match lib.NewSchema "" (NewRecNode derive (columns.map Column.effective)) with
       | none => .fault
       | some schema =>
         match lib.NewWriter schema codec with
         | none => .fault
         | some fw =>
           .ok { Writer := fw
                 columns := columns.map Column.effective
                 decNumScale := columns.map
                   (fun col => some (mk (scaleArgument (effectiveScale col.DbScale)))) }) := by
  unfold NewParquetWriter
  simp only [NewParquetWriter_loop_eq, hok, getParquetSchema]
  cases lib.NewSchema "" (NewRecNode derive (columns.map Column.effective)) with
  | none => rfl
  | some schema =>
    simp only
    cases lib.NewWriter schema codec <;> rfl

/-- C9, counterexample: for a catalog whose column is held as a struct, no
`parquet` library whose `NewWriterConfig` succeeds makes `NewParquetWriter`
return an error; the tree the call hands to `parquet.NewSchema` has for that
column a wrapper that holds no node; and with a library whose `NewSchema`
panics on such a tree the call ends in a panic, which is neither a returned
error nor a returned writer. -/
theorem struct_column_gives_no_error :
    (¬ ∃ lib : ParquetLib RecNode (RecNode × String), lib.NewWriterConfig = .ok () ∧
        (NewParquetWriter lib deriveString MakeDecNumScale structCatalog "").1.isError = true) ∧
      (NewRecNode deriveString (structCatalog.map Column.effective)).Fields.map
        (fun f => f.Node) = [.goNode .nil .Struct] ∧
      (NewParquetWriter strictLib deriveString MakeDecNumScale structCatalog "").1.isError =
        false ∧
      (NewParquetWriter strictLib deriveString MakeDecNumScale structCatalog "").1.value?.map
        (fun pw => pw.columns) = none := by
  refine ⟨?_, by rfl, by rfl, by rfl⟩
  rintro ⟨lib, hok, herr⟩
  obtain ⟨err, he⟩ := (NewParquetWriter_isError_iff lib deriveString MakeDecNumScale
    structCatalog "").1 herr
  rw [hok] at he
  cases he

/-- C9 (amended): building the schema returns no error. `NewParquetWriter`
returns an error exactly when `parquet.NewWriterConfig` returns one, whatever
the catalog. Once that call has succeeded, `NewParquetWriter` hands the tree of
`NewRecNode`, which has one field for each column whatever the representations
of the columns, to `parquet.NewSchema` and the schema to `parquet.NewWriter`,
with no recover: it panics when either of them panics, and returns the writer
when both return. -/
theorem schema_building_returns_no_error {ρ σ ω : Type} (lib : ParquetLib σ ω)
    (derive : Column → ReflectType) (mk : Int → ρ) (columns : Columns) (codec : String) :
    ((NewParquetWriter lib derive mk columns codec).1.isError = true ↔
        ∃ err, lib.NewWriterConfig = .error err) ∧
      (NewRecNode derive (columns.map Column.effective)).Fields.length = columns.length ∧
      (lib.NewWriterConfig = .ok () →
        (NewParquetWriter lib derive mk columns codec).1 =
          (match lib.NewSchema "" (NewRecNode derive (columns.map Column.effective)) with
           | none => .fault
           | some schema =>
             match lib.NewWriter schema codec with
             | none => .fault
             | some fw =>
               .ok { Writer := fw
                     columns := columns.map Column.effective
                     decNumScale := columns.map
                       (fun col => some (mk (scaleArgument (effectiveScale col.DbScale)))) })) := by
  refine ⟨NewParquetWriter_isError_iff lib derive mk columns codec, ?_,
    NewParquetWriter_after_config lib derive mk columns codec⟩
  rw [Fields_eq, NewRecNode_fields]
  simp

/-- C10, counterexample: for a column of declared scale 0 the entry of
`decNumScale` is built from the scale 9, and it is not `MakeDecNumScale(1)`.
The first part keeps, in place of the factor, the scale `MakeDecNumScale` is
called with; the second part takes the factor to be ten to the power of the
scale. -/
theorem unset_scale_factor_is_built_from_nine :
    (NewParquetWriter recordingLib deriveString (fun scale => scale)
        unsetDecimalCatalog "").1.value?.map (fun pw => pw.decNumScale) = some [some 9] ∧
      (NewParquetWriter recordingLib deriveString MakeDecNumScale
        unsetDecimalCatalog "").1.value?.map (fun pw => pw.decNumScale) =
        some [some (MakeDecNumScale 9)] ∧
      MakeDecNumScale 9 ≠ MakeDecNumScale 1 := by
  refine ⟨by rfl, by rfl, ?_⟩
  show (10 : ℚ) ^ 9 ≠ 10 ^ 1
  norm_num

/-- C10 (amended): after `NewParquetWriter`, `decNumScale` has one entry for
each column of the catalog, at the index of the column, and every entry is
built by `MakeDecNumScale` from a scale above 0: from 9 for a declared scale of
0, from the declared scale for one between 1 and 16, from 16 for one above 16
and from 1 for a negative one. -/
theorem NewParquetWriter_decNumScale_entries {ρ σ ω : Type} (lib : ParquetLib σ ω)
    (derive : Column → ReflectType) (mk : Int → ρ) (columns : Columns) (codec : String)
    (pw : ParquetWriter ρ ω) (h : (NewParquetWriter lib derive mk columns codec).1 = .ok pw) :
    pw.decNumScale.length = columns.length ∧
      ∀ (i : Nat) (col : Column), columns[i]? = some col →
        ∃ scale : Int, pw.decNumScale[i]? = some (some (mk scale)) ∧ 0 < scale ∧
          scale = (if col.DbScale = 0 then 9 else if col.DbScale > 16 then 16
            else if col.DbScale > 0 then col.DbScale else 1) := by
  obtain ⟨-, hdecs, -, -⟩ := NewParquetWriter_ok lib derive mk columns codec pw h
  refine ⟨by simp [hdecs], ?_⟩
  intro i col hi
  refine ⟨scaleArgument (effectiveScale col.DbScale), by simp [hdecs, hi], ?_, ?_⟩
  · unfold scaleArgument
    split <;> omega
  · unfold scaleArgument effectiveScale
    by_cases h0 : col.DbScale = 0
    · simp [h0]
    · by_cases h1 : col.DbScale > 16
      · simp [h0, h1]
      · by_cases h2 : col.DbScale > 0 <;> simp [h0, h1, h2]

/-- C10, witness: the writer built for the catalog of the end-to-end example. -/
theorem NewParquetWriter_decNumScale_entries_witness :
    (NewParquetWriter recordingLib deriveString MakeDecNumScale exampleCatalog "snappy").1 =
        .ok exampleWriter ∧
      exampleWriter.decNumScale.length = exampleCatalog.length :=
  ⟨by rfl, (NewParquetWriter_decNumScale_entries recordingLib deriveString MakeDecNumScale
    exampleCatalog "snappy" exampleWriter (by rfl)).1⟩


/-! ## The columns of an open file -/

/-- The lookup in `typeMap`, after the nil type has been replaced by the byte
array type, is the table `fieldColumnType`. -/
theorem typeMapIndex_eq (zero : ColumnType) (ty : Option ParquetType) :
    typeMapIndex zero (match ty with
      | none => .ByteArrayType
      | some t => t) = fieldColumnType zero ty := by
  cases ty with
  | none => rfl
  | some t =>
    cases t <;> rfl

/-- One pass of the loop of `Columns` appends the column of the field. -/
theorem Columns_step_eq (CleanName : String → String) (zero : ColumnType) (cols : Columns)
    (field : Field) :
    Parquet.Columns.step CleanName zero cols field =
      cols ++ [fieldColumn CleanName zero cols.length field] := by
  simp only [Parquet.Columns.step, typeMapIndex_eq, fieldColumn, g.In]
  congr 2
  simp

/-- The loop of `Columns` started on `acc`: the columns of `acc`, then one
column for each field, numbered on from the length of `acc`. -/
theorem Columns_foldl (CleanName : String → String) (zero : ColumnType) (fields : List Field) :
    ∀ acc : Columns,
      (fields.foldl (Parquet.Columns.step CleanName zero) acc).length =
          acc.length + fields.length ∧
        ∀ i : Nat, (fields.foldl (Parquet.Columns.step CleanName zero) acc)[i]? =
          if i < acc.length then acc[i]?
          else (fields[i - acc.length]?).map (fieldColumn CleanName zero i) := by
  induction fields with
  | nil =>
    intro acc
    refine ⟨by simp, ?_⟩
    intro i
    by_cases hi : i < acc.length
    · simp [hi]
    · simp [hi, List.getElem?_eq_none (Nat.le_of_not_lt hi)]
  | cons field rest ih =>
    intro acc
    obtain ⟨hlen, hget⟩ := ih (Parquet.Columns.step CleanName zero acc field)
    rw [List.foldl_cons]
    rw [Columns_step_eq] at hlen hget ⊢
    refine ⟨by simp at hlen ⊢; omega, ?_⟩
    intro i
    rw [hget i]
    have hl : (acc ++ [fieldColumn CleanName zero acc.length field]).length = acc.length + 1 := by
      simp
    by_cases h1 : i < acc.length
    · have h2 : i < (acc ++ [fieldColumn CleanName zero acc.length field]).length := by omega
      rw [if_pos h2, if_pos h1, List.getElem?_append_left h1]
    · by_cases h3 : i = acc.length
      · subst h3
        have h2 : acc.length < (acc ++ [fieldColumn CleanName zero acc.length field]).length := by
          omega
        rw [if_pos h2, if_neg h1, List.getElem?_append_right (Nat.le_refl _)]
        simp
      · have h2 : ¬ i < (acc ++ [fieldColumn CleanName zero acc.length field]).length := by omega
        have h4 : i - acc.length = (i - (acc.length + 1)) + 1 := by omega
        rw [if_neg h2, if_neg h1, hl, h4, List.getElem?_cons_succ]

/-- C4, counterexample: with the empty column type as the zero value of
`ColumnType`, a fixed-length byte array field and a field of the string
logical type get the empty column type, not the string type. -/
theorem absent_physical_type_gets_zero_type :
    (Parquet.Columns (fun name => name) (.other "")
        { Reader := { Schema := sampleSchema, pending := [] }, colMap := [] }).map
      (fun c => (c.Name, c.Type_, c.Position)) =
      [ ("digest", .other "", 1), ("label", .other "", 2), ("flag", BoolType, 3),
        ("raw", StringType, 4) ] ∧
    ColumnType.other "" ≠ StringType := by
  refine ⟨by rfl, by decide⟩

/-- C4 (amended): `Columns` returns one column for each field of the schema, in
order, the field at index `i` getting position `i + 1`. Its type is boolean
for a boolean field, integer for a 32-bit integer field, big-integer for a
64-bit or 96-bit integer field, decimal for a 32-bit or 64-bit float field,
string for a byte-array field and for a field with no type; a field of any
other type gets the zero value of the column type, which is what indexing
`typeMap` with a key it does not list returns. -/
theorem Columns_types_and_positions (CleanName : String → String) (zero : ColumnType)
    (p : Parquet) :
    (p.Columns CleanName zero).length = p.Reader.Schema.length ∧
      ∀ (i : Nat) (field : Field), p.Reader.Schema[i]? = some field →
        ∃ c, (p.Columns CleanName zero)[i]? = some c ∧
          c.Position = (i : Int) + 1 ∧ c.Name = CleanName field.Name ∧
          (field.Type_ = none → c.Type_ = StringType) ∧
          (field.Type_ = some .BooleanType → c.Type_ = BoolType) ∧
          (field.Type_ = some .Int32Type → c.Type_ = IntegerType) ∧
          (field.Type_ = some .Int64Type → c.Type_ = BigIntType) ∧
          (field.Type_ = some .Int96Type → c.Type_ = BigIntType) ∧
          (field.Type_ = some .FloatType → c.Type_ = DecimalType) ∧
          (field.Type_ = some .DoubleType → c.Type_ = DecimalType) ∧
          (field.Type_ = some .ByteArrayType → c.Type_ = StringType) ∧
          (∀ n, field.Type_ = some (.FixedLenByteArrayType n) → c.Type_ = zero) ∧
          (∀ name, field.Type_ = some (.logical name) → c.Type_ = zero) := by
  obtain ⟨hlen, hget⟩ := Columns_foldl CleanName zero p.Reader.Schema []
  refine ⟨by simpa [Parquet.Columns] using hlen, ?_⟩
  intro i field hi
  refine ⟨fieldColumn CleanName zero i field, ?_, rfl, rfl, ?_⟩
  · have := hget i
    simpa [Parquet.Columns, hi] using this
  · simp only [fieldColumn]
    refine ⟨?_, ?_, ?_, ?_, ?_, ?_, ?_, ?_, ?_, ?_⟩ <;> intros <;> simp_all [fieldColumnType]

/-- C4, witness: the boolean field of the sample schema. -/
theorem Columns_types_and_positions_witness :
    (Parquet.Columns (fun name => name) (.other "")
        { Reader := { Schema := sampleSchema, pending := [] }, colMap := [] }).length = 4 :=
  (Columns_types_and_positions (fun name => name) (.other "")
    { Reader := { Schema := sampleSchema, pending := [] }, colMap := [] }).1


/-! ## The loop of `WriteRow` -/

/-- Writing back the value a slot already holds changes nothing. -/
theorem set_same {α : Type} (xs : List α) (i : Nat) (v : α) (h : xs[i]? = some v) :
    xs.set i v = xs := by
  apply List.ext_getElem?
  intro j
  rw [List.getElem?_set]
  by_cases hij : i = j
  · subst hij
    have hlt : i < xs.length := by
      by_contra hge
      rw [List.getElem?_eq_none (Nat.le_of_not_lt hge)] at h
      cases h
    simp [hlt, h]
  · simp [hij]

/-- The `switch` of `WriteRow` on a slot that exists, with a scale factor that
exists: the slot receives `WriteRow.cell`, and the `switch` panics when that
is undefined. -/
theorem WriteRow_coerce_eq {ρ ω : Type} (cast : CastLib ρ) (pw : ParquetWriter ρ ω)
    (col : Column) (i : Nat) (row : List Any) (v : Any) (numSca : Option ρ)
    (hv : row[i]? = some v) (hn : pw.decNumScale[i]? = some numSca) :
    WriteRow.coerce cast pw col i row =
      (WriteRow.cell cast col numSca v).map (fun x => row.set i x) := by
  unfold WriteRow.coerce WriteRow.cell
  by_cases hb : col.IsBool = true
  · simp [hb, hv]
  · by_cases hf : col.Type_ = FloatType
    · simp [hb, hf, hv]
    · by_cases hd : col.Type_ = DecimalType
      · have hne : DecimalType ≠ FloatType := by decide
        simp only [hb, hd, hne, hv, hn, if_false, if_true]
        cases cast.StringToDecimalByteArray (cast.ToString v) numSca 16 <;> rfl
      · by_cases ht : col.IsDatetime = true
        · simp only [hb, hf, hd, ht, if_false, if_true, hv]
          cases v with
          | time valT =>
            simp only
            by_cases h3 : col.DbPrecision = 3
            · simp [h3]
            · by_cases h6 : col.DbPrecision = 6
              · simp [h6]
              · by_cases h9 : col.DbPrecision = 9
                · simp [h9]
                · simp only [h3, h6, if_false, Option.map_some']
                  split <;> rfl
          | _ => simp [set_same row i _ hv]
        · simp [hb, hf, hd, ht, set_same row i v hv]

/-- One pass of the loop of `WriteRow` on a column that is present, a slot
that exists and a scale factor that exists. -/
theorem WriteRow_step_eq {ρ σ ω : Type} (lib : ParquetLib σ ω) (cast : CastLib ρ)
    (pw : ParquetWriter ρ ω) (k : Nat) (row2 : List Any) (rec : List Value) (col : Column)
    (v : Any) (numSca : Option ρ) (hc : pw.columns[k]? = some col) (hv : row2[k]? = some v)
    (hn : pw.decNumScale[k]? = some numSca) :
    WriteRow.step lib cast pw (some (row2, rec)) k =
      match WriteRow.cell cast col numSca v with
      | none => none
      | some x =>
        match lib.ValueOf x with
        | none => none
        | some value => some (row2.set k x, rec.set k value) := by
  have hk : k < row2.length := by
    by_contra hge
    rw [List.getElem?_eq_none (Nat.le_of_not_lt hge)] at hv
    cases hv
  simp only [WriteRow.step, hc, WriteRow_coerce_eq cast pw col k row2 v numSca hv hn]
  cases hcell : WriteRow.cell cast col numSca v with
  | none => rfl
  | some x =>
    have hset : (row2.set k x)[k]? = some x := by
      rw [List.getElem?_set]; simp [hk]
    simp only [Option.map_some', hset]

/-- The loop of `WriteRow` on a row that has a slot for every column, with a
scale factor for every column, when neither the `switch` nor `parquet.ValueOf`
panics on any slot: it ends without a panic, and the physical row holds at the
index of each column the value `WriteRow.emit` makes of the slot of that
column. -/
theorem WriteRow_loop_eq {ρ σ ω : Type} (lib : ParquetLib σ ω) (cast : CastLib ρ)
    (pw : ParquetWriter ρ ω) (row : List Any) (hrow : pw.columns.length ≤ row.length)
    (hdec : pw.columns.length ≤ pw.decNumScale.length)
    (hconv : ∀ (j : Nat) (col : Column) (v : Any) (numSca : Option ρ),
      pw.columns[j]? = some col → row[j]? = some v → pw.decNumScale[j]? = some numSca →
      ∃ value, WriteRow.emit lib cast col numSca v = some value) :
    ∃ row2 rec, WriteRow.loop lib cast pw row = some (row2, rec) ∧
      rec.length = pw.columns.length ∧
      ∀ (j : Nat) (col : Column) (v : Any) (numSca : Option ρ),
        pw.columns[j]? = some col → row[j]? = some v → pw.decNumScale[j]? = some numSca →
        rec[j]? = WriteRow.emit lib cast col numSca v := by
  have inv := foldl_range_inv (WriteRow.step lib cast pw)
    (fun k st => ∃ row2 rec, st = some (row2, rec) ∧ row2.length = row.length ∧
      rec.length = pw.columns.length ∧ (∀ j, k ≤ j → row2[j]? = row[j]?) ∧
      ∀ (j : Nat) (col : Column) (v : Any) (numSca : Option ρ), j < k →
        pw.columns[j]? = some col → row[j]? = some v → pw.decNumScale[j]? = some numSca →
        rec[j]? = WriteRow.emit lib cast col numSca v)
    (some (row, List.replicate pw.columns.length .zero)) pw.columns.length
    ⟨row, _, rfl, rfl, by simp, fun _ _ => rfl, by
      intro j col v numSca hj
      omega⟩
    (by
      intro k st hk hst
      obtain ⟨row2, rec, rfl, hl1, hl2, hrest, hdone⟩ := hst
      have hc : pw.columns[k]? = some pw.columns[k] := List.getElem?_eq_getElem hk
      have hkr : k < row.length := by omega
      have hkd : k < pw.decNumScale.length := by omega
      have hrk : row[k]? = some row[k] := List.getElem?_eq_getElem hkr
      have hv : row2[k]? = some row[k] := by
        rw [hrest k (Nat.le_refl k)]; exact hrk
      have hn : pw.decNumScale[k]? = some pw.decNumScale[k] := List.getElem?_eq_getElem hkd
      obtain ⟨value, hvalue⟩ := hconv k _ _ _ hc hrk hn
      unfold WriteRow.emit at hvalue
      cases hcell : WriteRow.cell cast pw.columns[k] pw.decNumScale[k] row[k] with
      | none => simp [hcell] at hvalue
      | some x =>
        simp only [hcell, Option.some_bind] at hvalue
        refine ⟨row2.set k x, rec.set k value, ?_, by simp [hl1], by simp [hl2], ?_, ?_⟩
        · rw [WriteRow_step_eq lib cast pw k row2 rec _ _ _ hc hv hn]
          simp only [hcell, hvalue]
        · intro j hj
          rw [List.getElem?_set, if_neg (by omega)]
          exact hrest j (by omega)
        · intro j col v numSca hj hcol hrv hnum
          by_cases hjk : k = j
          · subst hjk
            rw [hc] at hcol
            rw [hrk] at hrv
            rw [hn] at hnum
            cases hcol; cases hrv; cases hnum
            unfold WriteRow.emit
            rw [List.getElem?_set, hcell, Option.some_bind, hvalue]
            simp [hl2, hk]
          · rw [List.getElem?_set, if_neg hjk]
            exact hdone j col v numSca (by omega) hcol hrv hnum)
  obtain ⟨row2, rec, hst, -, hl2, -, hdone⟩ := inv
  refine ⟨row2, rec, hst, hl2, ?_⟩
  intro j col v numSca hcol hrv hnum
  have hj : j < pw.columns.length := by
    by_contra hge
    rw [List.getElem?_eq_none (Nat.le_of_not_lt hge)] at hcol
    cases hcol
  exact hdone j col v numSca hj hcol hrv hnum

/-- A pass of the loop of `WriteRow` in which the `switch` or `parquet.ValueOf`
panics ends the loop with a panic: when the row has a slot for every column, a
scale factor exists for every column and `WriteRow.emit` is undefined on the
slot of some column, the loop panics. -/
theorem WriteRow_loop_fault {ρ σ ω : Type} (lib : ParquetLib σ ω) (cast : CastLib ρ)
    (pw : ParquetWriter ρ ω) (row : List Any) (hrow : pw.columns.length ≤ row.length)
    (hdec : pw.columns.length ≤ pw.decNumScale.length)
    (j : Nat) (col : Column) (v : Any) (numSca : Option ρ)
    (hcol : pw.columns[j]? = some col) (hv : row[j]? = some v)
    (hn : pw.decNumScale[j]? = some numSca)
    (hbad : WriteRow.emit lib cast col numSca v = none) :
    WriteRow.loop lib cast pw row = none := by
  have hj : j < pw.columns.length := by
    by_contra hge
    rw [List.getElem?_eq_none (Nat.le_of_not_lt hge)] at hcol
    cases hcol
  have inv := foldl_range_inv (WriteRow.step lib cast pw)
    (fun k st => (j < k → st = none) ∧
      (∀ row2 rec, st = some (row2, rec) →
        row2.length = row.length ∧ ∀ i, k ≤ i → row2[i]? = row[i]?))
    (some (row, List.replicate pw.columns.length .zero)) pw.columns.length
    ⟨by intro h; omega, by
      intro row2 rec h
      cases h
      exact ⟨rfl, fun _ _ => rfl⟩⟩
    (by
      intro k st hk hst
      obtain ⟨hnone, hkeep⟩ := hst
      cases st with
      | none => exact ⟨fun _ => rfl, by intro row2 rec h; cases h⟩
      | some pr =>
        obtain ⟨row2, rec⟩ := pr
        obtain ⟨hlen, hsame⟩ := hkeep row2 rec rfl
        have hc : pw.columns[k]? = some pw.columns[k] := List.getElem?_eq_getElem hk
        have hkr : k < row.length := by omega
        have hkd : k < pw.decNumScale.length := by omega
        have hrk : row[k]? = some row[k] := List.getElem?_eq_getElem hkr
        have hv2 : row2[k]? = some row[k] := by
          rw [hsame k (Nat.le_refl k)]; exact hrk
        have hn2 : pw.decNumScale[k]? = some pw.decNumScale[k] :=
          List.getElem?_eq_getElem hkd
        rw [WriteRow_step_eq lib cast pw k row2 rec _ _ _ hc hv2 hn2]
        cases hcell : WriteRow.cell cast pw.columns[k] pw.decNumScale[k] row[k] with
        | none => exact ⟨fun _ => rfl, by intro row3 rec3 h; cases h⟩
        | some x =>
          simp only
          cases hval : lib.ValueOf x with
          | none => exact ⟨fun _ => rfl, by intro row3 rec3 h; cases h⟩
          | some value =>
            simp only
            refine ⟨?_, ?_⟩
            · intro hlt
              by_cases hjk : j = k
              · subst hjk
                rw [hc] at hcol
                rw [hrk] at hv
                rw [hn2] at hn
                cases hcol; cases hv; cases hn
                unfold WriteRow.emit at hbad
                rw [hcell, Option.some_bind, hval] at hbad
                cases hbad
              · have := hnone (by omega)
                cases this
            · intro row3 rec3 h
              simp only [Option.some.injEq, Prod.mk.injEq] at h
              refine ⟨by rw [← h.1, List.length_set, hlen], ?_⟩
              intro i hi
              rw [← h.1, List.getElem?_set, if_neg (by omega)]
              exact hsame i (by omega))
  exact inv.1 hj

/-- Reduction to 64 bits leaves a value of the signed 64-bit range as it is. -/
theorem wrap64_of_fits (x : Int) (h1 : -(2 ^ 63) ≤ x) (h2 : x < 2 ^ 63) : wrap64 x = x := by
  unfold wrap64
  have h3 : (x + 2 ^ 63) % 2 ^ 64 = x + 2 ^ 63 := by
    apply Int.emod_eq_of_lt <;> omega
  omega

/-- The stored precision selects the unit the declared precision selects. -/
theorem specUnits_effective (p : Int) (t : Time) :
    specUnits (effectivePrecision p) t = specUnits p t := by
  unfold effectivePrecision
  by_cases h0 : p = 0
  · subst h0
    rfl
  · by_cases h1 : p > 36
    · have h3 : p ≠ 3 := by omega
      have h6 : p ≠ 6 := by omega
      simp [h0, h1, specUnits, h3, h6]
    · simp [h0, h1]

/-- The value `WriteRow.cell` makes of a time in a datetime column. -/
theorem WriteRow_cell_datetime {ρ : Type} (cast : CastLib ρ) (col : Column) (numSca : Option ρ)
    (t : Time) (hdt : col.IsDatetime = true) :
    WriteRow.cell cast col numSca (.time t) =
      some (.int64 (wrap64 (specUnits col.DbPrecision t))) := by
  have hty : col.Type_ = ColumnType.datetime := by
    simpa [Column.IsDatetime] using hdt
  have hb : col.IsBool = false := by
    simp [Column.IsBool, hty]
  have hf : col.Type_ ≠ FloatType := by
    rw [hty]; decide
  have hd : col.Type_ ≠ DecimalType := by
    rw [hty]; decide
  unfold WriteRow.cell specUnits
  simp only [hb, hf, hd, hdt, if_false, if_true, Bool.false_eq_true]
  by_cases h3 : col.DbPrecision = 3
  · simp [h3, Time.UnixMilli]
  · by_cases h6 : col.DbPrecision = 6
    · simp [h6, Time.UnixMicro]
    · simp [h3, h6, Time.UnixNano]


/-! ## Claim about the time units of `WriteRow` -/

/-- C5, counterexample: for a datetime column of unset precision and the
instant ten to the tenth seconds after the epoch (in the year 2286), `WriteRow`
emits -8446744073709551616, not the ten to the nineteenth nanoseconds since
the epoch; the column of precision 3 next to it gets its milliseconds. -/
theorem far_time_nanoseconds_wrap :
    (NewParquetWriter recordingLib deriveString MakeDecNumScale datetimeCatalog "").1.value?.map
        (fun pw => (pw.WriteRow recordingLib constCast [.time farTime, .time nearTime]).emitted) =
      some (some [.of (.int64 (-8446744073709551616)), .of (.int64 1000000000123)]) ∧
    specUnits 0 farTime = 10000000000000000000 := by
  refine ⟨by rfl, by decide⟩

/-- C5 (amended): take a writer built by `NewParquetWriter`, a datetime column
and a row that has a slot for every column and holds a time in the slot of
that column. When neither the `switch` nor `parquet.ValueOf` panics on any
slot of the row, `WriteRow` hands the library a physical row whose value for
the column is `parquet.ValueOf` of the signed 64-bit integer of the time units
since the epoch, reduced to 64 bits: milliseconds for a declared precision of
3, microseconds for 6 and nanoseconds for every other precision (9 and unset
among them); it is the count itself when the count fits a signed 64-bit
integer. When the `switch` or `parquet.ValueOf` panics on some slot of the row,
`WriteRow` panics and hands the library nothing. -/
theorem WriteRow_datetime_units {ρ σ ω : Type} (lib : ParquetLib σ ω) (cast : CastLib ρ)
    (derive : Column → ReflectType) (mk : Int → ρ) (columns : Columns) (codec : String)
    (pw : ParquetWriter ρ ω) (row : List Any) (i : Nat) (col : Column) (t : Time)
    (h : (NewParquetWriter lib derive mk columns codec).1 = .ok pw)
    (hcol : columns[i]? = some col) (hdt : col.IsDatetime = true)
    (hrow : row[i]? = some (.time t)) (hlen : columns.length ≤ row.length) :
    ((∀ (j : Nat) (c : Column) (v : Any), columns[j]? = some c → row[j]? = some v →
        ∃ value, WriteRow.emit lib cast c.effective
          (some (mk (scaleArgument (effectiveScale c.DbScale)))) v = some value) →
      ∃ rec value, (pw.WriteRow lib cast row).emitted = some rec ∧
        rec.length = columns.length ∧
        lib.ValueOf (.int64 (wrap64 (specUnits col.DbPrecision t))) = some value ∧
        rec[i]? = some value ∧
        (-(2 ^ 63) ≤ specUnits col.DbPrecision t → specUnits col.DbPrecision t < 2 ^ 63 →
          lib.ValueOf (.int64 (specUnits col.DbPrecision t)) = some value)) ∧
    ((∃ (j : Nat) (c : Column) (v : Any), columns[j]? = some c ∧ row[j]? = some v ∧
        WriteRow.emit lib cast c.effective
          (some (mk (scaleArgument (effectiveScale c.DbScale)))) v = none) →
      (pw.WriteRow lib cast row).outcome = .fault ∧
        (pw.WriteRow lib cast row).emitted = none) := by
  obtain ⟨hcols, hdecs, -, -⟩ := NewParquetWriter_ok lib derive mk columns codec pw h
  have hl1 : pw.columns.length = columns.length := by simp [hcols]
  have hl2 : pw.decNumScale.length = columns.length := by simp [hdecs]
  have hpcol : ∀ (j : Nat) (c : Column), columns[j]? = some c →
      pw.columns[j]? = some c.effective ∧
        pw.decNumScale[j]? = some (some (mk (scaleArgument (effectiveScale c.DbScale)))) := by
    intro j c hc
    simp [hcols, hdecs, hc]
  constructor
  · intro hconv
    have hconv2 : ∀ (j : Nat) (c2 : Column) (v : Any) (numSca : Option ρ),
        pw.columns[j]? = some c2 → row[j]? = some v → pw.decNumScale[j]? = some numSca →
        ∃ value, WriteRow.emit lib cast c2 numSca v = some value := by
      intro j c2 v numSca hc2 hv hn
      have hj : j < columns.length := by
        by_contra hge
        rw [List.getElem?_eq_none (by omega)] at hc2
        cases hc2
      obtain ⟨h1, h2⟩ := hpcol j columns[j] (List.getElem?_eq_getElem hj)
      rw [h1] at hc2
      rw [h2] at hn
      cases hc2; cases hn
      exact hconv j columns[j] v (List.getElem?_eq_getElem hj) hv
    obtain ⟨row2, rec, hloop, hreclen, hrec⟩ :=
      WriteRow_loop_eq lib cast pw row (by omega) (by omega) hconv2
    obtain ⟨hpc, hpn⟩ := hpcol i col hcol
    have hdt2 : col.effective.IsDatetime = true := hdt
    have hunits : specUnits col.effective.DbPrecision t = specUnits col.DbPrecision t :=
      specUnits_effective col.DbPrecision t
    have hval := hrec i col.effective (.time t) _ hpc hrow hpn
    unfold WriteRow.emit at hval
    rw [WriteRow_cell_datetime cast col.effective _ t hdt2, hunits, Option.some_bind] at hval
    obtain ⟨value, hvalue⟩ := hconv i col (.time t) hcol hrow
    unfold WriteRow.emit at hvalue
    rw [WriteRow_cell_datetime cast col.effective _ t hdt2, hunits, Option.some_bind] at hvalue
    refine ⟨rec, value, ?_, by omega, hvalue, by rw [hval, hvalue], ?_⟩
    · unfold ParquetWriter.WriteRow
      rw [hloop]
      simp only
      cases lib.WriteRows pw.Writer [rec] <;> rfl
    · intro h1 h2
      rw [← wrap64_of_fits _ h1 h2]
      exact hvalue
  · rintro ⟨j, c, v, hc, hv, hbad⟩
    obtain ⟨h1, h2⟩ := hpcol j c hc
    have hloop := WriteRow_loop_fault lib cast pw row (by omega) (by omega) j c.effective v _
      h1 hv h2 hbad
    unfold ParquetWriter.WriteRow
    rw [hloop]
    exact ⟨rfl, rfl⟩

/-- C5, witness: the column of precision 3 of the datetime catalog and the
instant 2001-09-09T01:46:40.123456789Z, in a row all of whose slots the
library converts. -/
theorem WriteRow_datetime_units_witness :
    (NewParquetWriter recordingLib deriveString MakeDecNumScale datetimeCatalog "").1 =
        .ok datetimeWriter ∧
      ∃ rec value, (datetimeWriter.WriteRow recordingLib constCast
            [.time farTime, .time nearTime]).emitted = some rec ∧
        rec.length = datetimeCatalog.length ∧
        recordingLib.ValueOf (.int64 (wrap64 (specUnits 3 nearTime))) = some value ∧
        rec[1]? = some value ∧
        (-(2 ^ 63) ≤ specUnits 3 nearTime → specUnits 3 nearTime < 2 ^ 63 →
          recordingLib.ValueOf (.int64 (specUnits 3 nearTime)) = some value) :=
  ⟨by rfl, (WriteRow_datetime_units recordingLib constCast deriveString MakeDecNumScale
    datetimeCatalog "" datetimeWriter [.time farTime, .time nearTime] 1
    (mkColumn "seen" .datetime 2 3 0) nearTime (by rfl) (by rfl) (by rfl) (by rfl)
    (by decide)).1 (by
      intro j c v hc hv
      match j with
      | 0 =>
        cases hc; cases hv
        exact ⟨_, rfl⟩
      | 1 =>
        cases hc; cases hv
        exact ⟨_, rfl⟩
      | j + 2 => cases hv)⟩


/-! ## The loop of `nextFunc` -/

/-- One key of the decoded row that the loop gets past: its column index is
inside the catalog, its slot is inside the row, and the loop goes on from the
row with that slot assigned. -/
theorem place_cons_ok (lower : String → String) (colMap : StringIntMap) (columns : Columns)
    (k : String) (v : Any) (rest : List (String × Any)) (Row Row2 : List Any)
    (h : nextFunc.place lower colMap columns ((k, v) :: rest) Row = .ok Row2) :
    ∃ col, indexInt? columns (colMap.index (lower k)) = some col ∧
      0 ≤ col.Position - 1 ∧ col.Position - 1 < Row.length ∧
      nextFunc.place lower colMap columns rest (Row.set (col.Position - 1).toNat v) =
        .ok Row2 := by
  unfold nextFunc.place at h
  cases hc : indexInt? columns (colMap.index (lower k)) with
  | none => simp [hc] at h
  | some col =>
    simp only [hc] at h
    by_cases hr : 0 ≤ col.Position - 1 ∧ col.Position - 1 < Row.length
    · rw [if_pos hr] at h
      exact ⟨col, rfl, hr.1, hr.2, h⟩
    · rw [if_neg hr] at h
      cases h

/-- The loop keeps the length of the row. -/
theorem place_length (lower : String → String) (colMap : StringIntMap) (columns : Columns)
    (m : List (String × Any)) :
    ∀ Row Row2 : List Any, nextFunc.place lower colMap columns m Row = .ok Row2 →
      Row2.length = Row.length := by
  induction m with
  | nil =>
    intro Row Row2 h
    simp only [nextFunc.place, Except.ok.injEq] at h
    rw [h]
  | cons kv rest ih =>
    intro Row Row2 h
    obtain ⟨k, v⟩ := kv
    obtain ⟨col, -, -, -, hrest⟩ := place_cons_ok lower colMap columns k v rest Row Row2 h
    rw [ih _ _ hrest, List.length_set]

/-- A slot that no key of the decoded row is sent to keeps its value. -/
theorem place_untouched (lower : String → String) (colMap : StringIntMap) (columns : Columns)
    (m : List (String × Any)) (s : Int) :
    ∀ Row Row2 : List Any, nextFunc.place lower colMap columns m Row = .ok Row2 →
      (∀ kv ∈ m, nextFunc.slot lower colMap columns kv.1 ≠ some s) → 0 ≤ s →
      Row2[s.toNat]? = Row[s.toNat]? := by
  induction m with
  | nil =>
    intro Row Row2 h _ _
    simp only [nextFunc.place, Except.ok.injEq] at h
    rw [h]
  | cons kv rest ih =>
    intro Row Row2 h hne hs
    obtain ⟨k, v⟩ := kv
    obtain ⟨col, hcol, h0, -, hrest⟩ := place_cons_ok lower colMap columns k v rest Row Row2 h
    have hk : nextFunc.slot lower colMap columns k ≠ some s := hne (k, v) (by simp)
    have hdiff : col.Position - 1 ≠ s := by
      intro heq
      apply hk
      simp [nextFunc.slot, hcol, heq]
    have hnat : (col.Position - 1).toNat ≠ s.toNat := by omega
    rw [ih _ _ hrest (fun kv hkv => hne kv (by simp [hkv])) hs, List.getElem?_set, if_neg hnat]

/-- The value of a key of the decoded row is in the slot of the key when the
loop ends, unless a later key is sent to the same slot. -/
theorem place_key (lower : String → String) (colMap : StringIntMap) (columns : Columns)
    (pre : List (String × Any)) (k : String) (v : Any) (post : List (String × Any)) :
    ∀ Row Row2 : List Any,
      nextFunc.place lower colMap columns (pre ++ (k, v) :: post) Row = .ok Row2 →
      ∃ col, indexInt? columns (colMap.index (lower k)) = some col ∧
        0 ≤ col.Position - 1 ∧ col.Position - 1 < Row.length ∧
        ((∀ kv ∈ post, nextFunc.slot lower colMap columns kv.1 ≠ some (col.Position - 1)) →
          Row2[(col.Position - 1).toNat]? = some v) := by
  induction pre with
  | nil =>
    intro Row Row2 h
    obtain ⟨col, hcol, h0, h1, hrest⟩ := place_cons_ok lower colMap columns k v post Row Row2 h
    refine ⟨col, hcol, h0, h1, ?_⟩
    intro hne
    have hnat : (col.Position - 1).toNat < Row.length := by omega
    rw [place_untouched lower colMap columns post _ _ _ hrest hne h0, List.getElem?_set,
      if_pos rfl, if_pos hnat]
  | cons kv pre ih =>
    intro Row Row2 h
    obtain ⟨k2, v2⟩ := kv
    obtain ⟨col2, -, -, -, hrest⟩ :=
      place_cons_ok lower colMap columns k2 v2 (pre ++ (k, v) :: post) Row Row2 h
    obtain ⟨col, hcol, h0, h1, hval⟩ := ih _ _ hrest
    exact ⟨col, hcol, h0, by simpa using h1, hval⟩

/-- What `nextFunc` returns when the read decodes a row and the loop gets past
all its keys. -/
theorem nextFunc_row_ok (lower : String → String) (p : Parquet) (it : Iterator)
    (m : List (String × Any)) (rest : List ReadResult) (Row : List Any)
    (hread : p.Reader.pending = .row m :: rest)
    (hplace : nextFunc.place lower p.colMap it.ds.Columns m
      (List.replicate it.ds.Columns.length .nil) = .ok Row) :
    p.nextFunc lower it =
      (true, { p with Reader := { p.Reader with pending := rest } }, { it with Row := Row }) := by
  simp only [Parquet.nextFunc, Reader.Read, hread, hplace]

/-- What `nextFunc` returns when the read decodes a row and the loop panics. -/
theorem nextFunc_row_fault (lower : String → String) (p : Parquet) (it : Iterator)
    (m : List (String × Any)) (rest : List ReadResult) (Row : List Any)
    (hread : p.Reader.pending = .row m :: rest)
    (hplace : nextFunc.place lower p.colMap it.ds.Columns m
      (List.replicate it.ds.Columns.length .nil) = .error Row) :
    p.nextFunc lower it =
      (false, { p with Reader := { p.Reader with pending := rest } },
        Iterator.CaptureErr { it with Row := Row } (.panicError "index out of range")) := by
  simp only [Parquet.nextFunc, Reader.Read, hread, hplace]


/-! ## The name map of the reader -/

/-- In a catalog whose lower-cased names are pairwise distinct, the name map
sends the lower-cased name of the column at index `j` to `j`. -/
theorem FieldMap_index (lower : String → String) (cols : Columns)
    (hnd : (cols.map (fun c => lower c.Name)).Nodup) (j : Nat) (c : Column)
    (hj : cols[j]? = some c) :
    (Columns.FieldMap lower cols true).index (lower c.Name) = (j : Int) := by
  have hne : ∀ a b : Nat, a < b → ∀ ca cb, cols[a]? = some ca → cols[b]? = some cb →
      lower ca.Name ≠ lower cb.Name := by
    intro a b hab ca cb ha hb heq
    have hbl : b < cols.length := by
      by_contra hge
      rw [List.getElem?_eq_none (Nat.le_of_not_lt hge)] at hb
      cases hb
    have := (List.nodup_iff_getElem?_ne_getElem?.1 hnd) a b hab (by simpa using hbl)
    apply this
    simp [List.getElem?_map, ha, hb, heq]
  have inv := foldl_range_inv
    (fun (m : StringIntMap) i =>
      match cols[i]? with
      | none => m
      | some col => ((if true = true then lower col.Name else col.Name), (i : Int)) :: m)
    (fun k m => ∀ a ca, a < k → cols[a]? = some ca → m.lookup (lower ca.Name) = some (a : Int))
    [] cols.length
    (by intro a ca ha; omega)
    (by
      intro k m hk hm a ca ha hca
      have hc : cols[k]? = some cols[k] := List.getElem?_eq_getElem hk
      simp only [hc, if_true, List.lookup_cons]
      by_cases hak : a = k
      · subst hak
        rw [hc] at hca
        cases hca
        simp
      · have hlt : a < k := by omega
        have hdiff := hne a k hlt ca cols[k] hca hc
        have hbeq : (lower ca.Name == lower cols[k].Name) = false := by
          simpa using hdiff
        simp only [hbeq]
        exact hm a ca hlt hca)
  have hjl : j < cols.length := by
    by_contra hge
    rw [List.getElem?_eq_none (Nat.le_of_not_lt hge)] at hj
    cases hj
  have hlook := inv j c hjl hj
  unfold StringIntMap.index Columns.FieldMap
  simp only [if_true] at hlook ⊢
  rw [hlook]


/-! ## Claims about the reader -/

/-- C6, counterexample: the file lists `ID` then `NAME`, the catalog lists
`name` (position 1) then `id` (position 2). The value of the key `ID` is put
in slot 0, the slot of the catalog column `name`, and slot 1, the slot of the
catalog column `id`, stays nil. -/
theorem file_order_decides_the_slot :
    Parquet.nextFunc asciiLower
        (NewParquetReader (fun name => name) (.other "") asciiLower idNameReader nameIdCatalog)
        (freshIterator nameIdCatalog) =
      (true,
        { Reader := { idNameReader with pending := [] }, colMap := [("name", 1), ("id", 0)] },
        { freshIterator nameIdCatalog with Row := [.int64 7, .nil] }) ∧
    nameIdCatalog.map (fun c => (c.Name, c.Position - 1)) = [("name", 0), ("id", 1)] := by
  refine ⟨by rfl, by rfl⟩

/-- C6 (amended): when `nextFunc` decodes a row and returns true, the generic
row has as many slots as the catalog has columns, and the value of every key
`k` is in the slot `Position - 1` of the catalog column found at the index
that the name map of the reader gives the lower-cased `k` (the map is built by
`NewParquetReader` from the fields of the file, in the order of the file),
unless a later key of the row is sent to the same slot. When the fields the
map was built from carry, in order, the names of the catalog columns up to
letter case, and those names are pairwise distinct, that column is the catalog
column whose name equals `k` up to letter case. -/
theorem nextFunc_slot_of_key (lower : String → String) (p : Parquet) (it : Iterator)
    (m : List (String × Any)) (rest : List ReadResult) (pre : List (String × Any)) (k : String)
    (v : Any) (post : List (String × Any))
    (hread : p.Reader.pending = .row m :: rest) (htrue : (p.nextFunc lower it).1 = true)
    (hm : m = pre ++ (k, v) :: post) :
    (p.nextFunc lower it).2.2.Row.length = it.ds.Columns.length ∧
      (∃ col, indexInt? it.ds.Columns (p.colMap.index (lower k)) = some col ∧
        0 ≤ col.Position - 1 ∧ col.Position - 1 < it.ds.Columns.length ∧
        ((∀ kv ∈ post,
            nextFunc.slot lower p.colMap it.ds.Columns kv.1 ≠ some (col.Position - 1)) →
          (p.nextFunc lower it).2.2.Row[(col.Position - 1).toNat]? = some v)) ∧
      (∀ (fileCols : Columns) (j : Nat) (c : Column),
        p.colMap = Columns.FieldMap lower fileCols true →
        fileCols.map (fun f => lower f.Name) = it.ds.Columns.map (fun f => lower f.Name) →
        (it.ds.Columns.map (fun f => lower f.Name)).Nodup →
        it.ds.Columns[j]? = some c → lower k = lower c.Name →
        indexInt? it.ds.Columns (p.colMap.index (lower k)) = some c) := by
  cases hplace : nextFunc.place lower p.colMap it.ds.Columns m
      (List.replicate it.ds.Columns.length .nil) with
  | error Row =>
    rw [nextFunc_row_fault lower p it m rest Row hread hplace] at htrue
    cases htrue
  | ok Row =>
    rw [nextFunc_row_ok lower p it m rest Row hread hplace]
    have hlen := place_length lower p.colMap it.ds.Columns m _ _ hplace
    rw [List.length_replicate] at hlen
    refine ⟨hlen, ?_, ?_⟩
    · subst hm
      obtain ⟨col, hcol, h0, h1, hval⟩ :=
        place_key lower p.colMap it.ds.Columns pre k v post _ _ hplace
      rw [List.length_replicate] at h1
      exact ⟨col, hcol, h0, h1, hval⟩
    · intro fileCols j c hmap hnames hnd hj hk
      have hjl : j < it.ds.Columns.length := by
        by_contra hge
        rw [List.getElem?_eq_none (Nat.le_of_not_lt hge)] at hj
        cases hj
      have hfile : (fileCols.map (fun f => lower f.Name))[j]? = some (lower c.Name) := by
        rw [hnames, List.getElem?_map, hj]
        rfl
      rw [List.getElem?_map] at hfile
      cases hf : fileCols[j]? with
      | none => simp [hf] at hfile
      | some f =>
        simp only [hf, Option.map_some', Option.some.injEq] at hfile
        have hidx := FieldMap_index lower fileCols (by rw [hnames]; exact hnd) j f hf
        rw [hmap, hk, ← hfile, hidx]
        simp [indexInt?, hj]

/-- C6, witness: the file and the catalog both list `id` then `name`, and the
row read holds the key `ID`. -/
theorem nextFunc_slot_of_key_witness :
    (Parquet.nextFunc asciiLower
        (NewParquetReader (fun name => name) (.other "") asciiLower idNameReader idNameCatalog)
        (freshIterator idNameCatalog)).2.2.Row.length = idNameCatalog.length :=
  (nextFunc_slot_of_key asciiLower
    (NewParquetReader (fun name => name) (.other "") asciiLower idNameReader idNameCatalog)
    (freshIterator idNameCatalog) [("ID", .int64 7)] [] [] "ID" (.int64 7) []
    (by rfl) (by rfl) (by rfl)).1

/-- C7: whatever the read of one row does, `nextFunc` returns. On the end of
the stream it returns false and captures nothing; on a read error it returns
false and captures the error; on a panic of the read it returns false and
captures an error made of the panic value; on a decoded row it returns true
with the row positioned, or, when positioning panics, false with an error
captured. It returns true only when a row was decoded. A stream whose third
read panics therefore yields its first two rows, then false with one error
captured. -/
theorem nextFunc_contains_faults (lower : String → String) (p : Parquet) (it : Iterator) :
    (p.Reader.pending = [] → p.nextFunc lower it = (false, p, it)) ∧
    (∀ rest, p.Reader.pending = .eof :: rest →
      p.nextFunc lower it =
        (false, { p with Reader := { p.Reader with pending := rest } }, it)) ∧
    (∀ cause rest, p.Reader.pending = .err cause :: rest →
      p.nextFunc lower it =
        (false, { p with Reader := { p.Reader with pending := rest } },
          { it with captured := it.captured ++ [.readError cause] })) ∧
    (∀ r rest, p.Reader.pending = .fault r :: rest →
      p.nextFunc lower it =
        (false, { p with Reader := { p.Reader with pending := rest } },
          { it with captured := it.captured ++ [.panicError r] })) ∧
    (∀ m rest, p.Reader.pending = .row m :: rest →
      (∃ Row, p.nextFunc lower it =
          (true, { p with Reader := { p.Reader with pending := rest } },
            { it with Row := Row })) ∨
      (∃ Row, p.nextFunc lower it =
          (false, { p with Reader := { p.Reader with pending := rest } },
            { it with Row := Row,
                      captured := it.captured ++ [.panicError "index out of range"] }))) ∧
    ((p.nextFunc lower it).1 = true →
      ∃ m rest, p.Reader.pending = .row m :: rest ∧
        (p.nextFunc lower it).2.2.captured = it.captured) ∧
    (∀ m1 m2 r rest Row1 Row2 n,
      p.Reader.pending = .row m1 :: .row m2 :: .fault r :: rest →
      nextFunc.place lower p.colMap it.ds.Columns m1
        (List.replicate it.ds.Columns.length .nil) = .ok Row1 →
      nextFunc.place lower p.colMap it.ds.Columns m2
        (List.replicate it.ds.Columns.length .nil) = .ok Row2 →
      drain lower (n + 3) p it =
        ([Row1, Row2], { p with Reader := { p.Reader with pending := rest } },
          { it with Row := Row2, captured := it.captured ++ [.panicError r] }, true)) := by
  refine ⟨?_, ?_, ?_, ?_, ?_, ?_, ?_⟩
  · intro h
    cases p with
    | mk rd cm =>
      cases rd with
      | mk sch pend =>
        simp only at h
        subst h
        rfl
  · intro rest h
    simp only [Parquet.nextFunc, Reader.Read, h]
  · intro cause rest h
    simp only [Parquet.nextFunc, Reader.Read, h, Iterator.CaptureErr]
  · intro r rest h
    simp only [Parquet.nextFunc, Reader.Read, h, Iterator.CaptureErr]
  · intro m rest h
    cases hplace : nextFunc.place lower p.colMap it.ds.Columns m
        (List.replicate it.ds.Columns.length .nil) with
    | ok Row => exact Or.inl ⟨Row, nextFunc_row_ok lower p it m rest Row h hplace⟩
    | error Row => exact Or.inr ⟨Row, nextFunc_row_fault lower p it m rest Row h hplace⟩
  · intro htrue
    cases hp : p.Reader.pending with
    | nil => simp [Parquet.nextFunc, Reader.Read, hp] at htrue
    | cons res rest =>
      cases res with
      | eof => simp [Parquet.nextFunc, Reader.Read, hp] at htrue
      | err cause => simp [Parquet.nextFunc, Reader.Read, hp] at htrue
      | fault r => simp [Parquet.nextFunc, Reader.Read, hp] at htrue
      | row m =>
        refine ⟨m, rest, rfl, ?_⟩
        cases hplace : nextFunc.place lower p.colMap it.ds.Columns m
            (List.replicate it.ds.Columns.length .nil) with
        | ok Row => rw [nextFunc_row_ok lower p it m rest Row hp hplace]
        | error Row =>
          rw [nextFunc_row_fault lower p it m rest Row hp hplace] at htrue
          cases htrue
  · intro m1 m2 r rest Row1 Row2 n h hp1 hp2
    have e1 := nextFunc_row_ok lower p it m1 (.row m2 :: .fault r :: rest) Row1 h hp1
    have e2 := nextFunc_row_ok lower
      { p with Reader := { p.Reader with pending := .row m2 :: .fault r :: rest } }
      { it with Row := Row1 } m2 (.fault r :: rest) Row2 rfl hp2
    have e3 : Parquet.nextFunc lower
        { p with Reader := { p.Reader with pending := .fault r :: rest } }
        { it with Row := Row2 } =
        (false, { p with Reader := { p.Reader with pending := rest } },
          { it with Row := Row2, captured := it.captured ++ [.panicError r] }) := by
      simp only [Parquet.nextFunc, Reader.Read, Iterator.CaptureErr]
    simp only [drain, e1, e2, e3]

/-- C7, witness: a reader whose third read panics, drained. -/
theorem nextFunc_contains_faults_witness :
    drain asciiLower 5
        (NewParquetReader (fun name => name) (.other "") asciiLower faultyReader idNameCatalog)
        (freshIterator idNameCatalog) =
      ([[.int64 1, .string "a"], [.int64 2, .string "b"]],
        { NewParquetReader (fun name => name) (.other "") asciiLower faultyReader idNameCatalog
          with Reader := { faultyReader with
            pending := [.row [("ID", .int64 4), ("NAME", .string "d")]] } },
        { freshIterator idNameCatalog with
          Row := [.int64 2, .string "b"], captured := [.panicError "page header"] },
        true) :=
  (nextFunc_contains_faults asciiLower
    (NewParquetReader (fun name => name) (.other "") asciiLower faultyReader idNameCatalog)
    (freshIterator idNameCatalog)).2.2.2.2.2.2
    [("ID", .int64 1), ("NAME", .string "a")] [("NAME", .string "b"), ("ID", .int64 2)]
    "page header" [.row [("ID", .int64 4), ("NAME", .string "d")]]
    [.int64 1, .string "a"] [.int64 2, .string "b"] 2 (by rfl) (by rfl) (by rfl)

end Iop
